import Mathlib

/-
Verification development for the memory-hierarchy simulator core:
a set-associative write-back cache hierarchy with MSHRs (Cache_example.cpp)
and the DRAM-controller request scheduler / row policy (Scheduler.h).

The C++ is shallowly embedded: every stateful method becomes a pure Lean
function from the old state to the new state (plus the values the method
returns or the calls it makes into its collaborators, returned as data).
Machine integers (C++ long / int, all used at non-negative values here)
become Nat, or Int where subtraction appears in the source.  Fallible code
(assert in the source) returns Option, with none standing for an assertion
failure.  Functions declared in the missing header Cache.h are modelled
from the specification; their doc comments say so explicitly.
-/

namespace RamuSched

/-- Request as the scheduler sees it: arrival time and decomposed address
vector (Request.arrive, Request.addr_vec in the source). -/
structure SReq where
  arrive : Int
  addr_vec : List Int
deriving DecidableEq

/-- Controller surface consumed by Scheduler and RowPolicy: the pure
predicates the scheduler calls back into the controller with
(is_ready(iter), is_row_hit(iter), is_row_open(iter)) and the PRE scope
prefix length (scope[int(T::Command::PRE)]). -/
structure SchedCtrl where
  is_ready : SReq → Bool
  is_row_hit : SReq → Bool
  is_row_open : SReq → Bool
  preScope : Nat

/-- Scheduler policy type enum (Scheduler.h, enum class Type). -/
inductive SchedType where
  | FCFS
  | FCFSBank
  | FRFCFS
  | BLISS
  | Custom
deriving DecidableEq

/-- FCFS comparator (Scheduler.h compare[0]): true means req1 is kept
(the comparator returns req1). -/
def compareFCFS (req1 req2 : SReq) : Bool :=
  decide (req1.arrive ≤ req2.arrive)

/-- FCFSBank comparator (Scheduler.h compare[1]): a request to an idle
bank beats one to a busy bank, ties broken by arrival time. -/
def compareFCFSBank (ctrl : SchedCtrl) (req1 req2 : SReq) : Bool :=
  let ready1 := ctrl.is_ready req1
  let ready2 := ctrl.is_ready req2
  if ready1 != ready2 then ready1
  else decide (req1.arrive ≤ req2.arrive)

/-- FRFCFS comparator (Scheduler.h compare[2]): ready means bank idle and
row hit; ready beats not ready, ties broken by arrival time. -/
def compareFRFCFS (ctrl : SchedCtrl) (req1 req2 : SReq) : Bool :=
  let ready1 := ctrl.is_ready req1 && ctrl.is_row_hit req1
  let ready2 := ctrl.is_ready req2 && ctrl.is_row_hit req2
  if ready1 != ready2 then ready1
  else decide (req1.arrive ≤ req2.arrive)

/-- BLISS comparator (Scheduler.h compare[3]): the shipped baseline body is
the FRFCFS comparator. -/
def compareBLISS (ctrl : SchedCtrl) (req1 req2 : SReq) : Bool :=
  let ready1 := ctrl.is_ready req1 && ctrl.is_row_hit req1
  let ready2 := ctrl.is_ready req2 && ctrl.is_row_hit req2
  if ready1 != ready2 then ready1
  else decide (req1.arrive ≤ req2.arrive)

/-- Custom comparator (Scheduler.h compare[4]): the shipped baseline body is
the FRFCFS comparator. -/
def compareCustom (ctrl : SchedCtrl) (req1 req2 : SReq) : Bool :=
  let ready1 := ctrl.is_ready req1 && ctrl.is_row_hit req1
  let ready2 := ctrl.is_ready req2 && ctrl.is_row_hit req2
  if ready1 != ready2 then ready1
  else decide (req1.arrive ≤ req2.arrive)

/-- Comparator table compare[int(type)] of Scheduler.h. -/
def compare (ctrl : SchedCtrl) : SchedType → SReq → SReq → Bool
  | .FCFS => fun req1 req2 => compareFCFS req1 req2
  | .FCFSBank => compareFCFSBank ctrl
  | .FRFCFS => compareFRFCFS ctrl
  | .BLISS => compareBLISS ctrl
  | .Custom => compareCustom ctrl

/-- Linear comparator scan of get_head: head starts at the first element;
for every later element head = compare(head, itr).  The Nat component is
the position of head in the queue (the iterator). -/
def foldBest (keep : SReq → SReq → Bool) : Nat × SReq → List SReq → Nat → Nat × SReq
  | best, [], _ => best
  | best, x :: xs, i =>
    foldBest keep (if keep best.2 x then best else (i, x)) xs (i + 1)

/-- Rowgroup of a request: the addr_vec prefix up to and including the PRE
scope level (vector<int> rowgroup(begin, begin + scope[PRE] + 1)). -/
def rowgroup (ctrl : SchedCtrl) (r : SReq) : List Int :=
  r.addr_vec.take (ctrl.preScope + 1)

/-- List hit_reqs built in the FRFCFS branch of get_head: the rowgroups of
every queued request that is a row hit, in queue order. -/
def hit_reqs (ctrl : SchedCtrl) (q : List SReq) : List (List Int) :=
  (q.filter ctrl.is_row_hit).map (rowgroup ctrl)

/-- Row-conflict test of the FRFCFS rescan: the request is not a row hit,
its bank has an open row, and its rowgroup equals the rowgroup of some
queued row-hit request (violate_hit in the source). -/
def violate_hit (ctrl : SchedCtrl) (hits : List (List Int)) (r : SReq) : Bool :=
  (!ctrl.is_row_hit r && ctrl.is_row_open r) && hits.contains (rowgroup ctrl r)

/-- Secondary scan of the FRFCFS branch: head starts at end (none), skips
every request that violates a hit, and otherwise accumulates with the
FCFSBank comparator. -/
def rescan (ctrl : SchedCtrl) (hits : List (List Int)) :
    Option (Nat × SReq) → List SReq → Nat → Option (Nat × SReq)
  | head, [], _ => head
  | head, x :: xs, i =>
    if violate_hit ctrl hits x then rescan ctrl hits head xs (i + 1)
    else
      match head with
      | none => rescan ctrl hits (some (i, x)) xs (i + 1)
      | some best =>
          rescan ctrl hits
            (some (if compareFCFSBank ctrl best.2 x then best else (i, x))) xs (i + 1)

/-- Scheduler::get_head.  Returns the position of the selected request in
the queue, or none for q.end().  FCFS and FCFSBank take the plain-scan
branch; every other type (FRFCFS, BLISS, Custom) takes the else branch:
comparator scan, direct return when the best is ready-and-row-hit, and
otherwise the row-conflict rescan with the FCFSBank comparator. -/
def get_head (ctrl : SchedCtrl) (ty : SchedType) (q : List SReq) : Option Nat :=
  if ty = .FCFS ∨ ty = .FCFSBank then
    match q with
    | [] => none
    | x :: xs => some (foldBest (compare ctrl ty) (0, x) xs 1).1
  else
    match q with
    | [] => none
    | x :: xs =>
      let head := foldBest (compare ctrl ty) (0, x) xs 1
      if ctrl.is_ready head.2 && ctrl.is_row_hit head.2 then some head.1
      else (rescan ctrl (hit_reqs ctrl q) none q 0).map Prod.fst

/-- Claimed behavior, following the words of the specification for the
BLISS and Custom types: a plain linear scan with the policy comparator,
always returning the comparator-preferred element, with no additional
row-conflict rescan or filtering.  Kept separate from get_head so the two
can be compared. -/
def get_head_plain_scan (ctrl : SchedCtrl) (ty : SchedType) (q : List SReq) : Option Nat :=
  match q with
  | [] => none
  | x :: xs => some (foldBest (compare ctrl ty) (0, x) xs 1).1

/-- Row table entry (RowTable::Entry): open row, hit count, last-access
time. -/
structure RTEntry where
  row : Int
  hits : Int
  timestamp : Int
deriving DecidableEq

/-- Row policy type enum (Scheduler.h, RowPolicy enum class Type), with
the source default Type::Timeout. -/
inductive RowPolicyType where
  | Closed
  | ClosedAP
  | Opened
  | Timeout
deriving DecidableEq

/-- RowPolicy configuration: policy type (source default Timeout) and the
precharge timeout (source default 50). -/
structure RowPolicy where
  type : RowPolicyType := .Timeout
  timeout : Int := 50

/-- Controller surface consumed by RowPolicy: the two-argument readiness
predicate is_ready(cmd, rowgroup), the clock, and the row table contents
(ctrl->rowtable->table) in key order. -/
structure RowCtrl (Cmd : Type) where
  is_ready_cmd : Cmd → List Int → Bool
  clk : Int
  table : List (List Int × RTEntry)

/-- Loop body shared by the Closed and ClosedAP policies: return the first
table key for which is_ready(cmd, key) holds, or the empty vector. -/
def firstReady {Cmd : Type} (ctrl : RowCtrl Cmd) (cmd : Cmd) :
    List (List Int × RTEntry) → List Int
  | [] => []
  | kv :: rest =>
    if !(ctrl.is_ready_cmd cmd kv.1) then firstReady ctrl cmd rest
    else kv.1

/-- Loop body of the Timeout policy: skip entries younger than the
timeout, skip entries that are not ready, return the first remaining key,
or the empty vector. -/
def firstTimedOut {Cmd : Type} (ctrl : RowCtrl Cmd) (cmd : Cmd) (timeout : Int) :
    List (List Int × RTEntry) → List Int
  | [] => []
  | kv :: rest =>
    if ctrl.clk - kv.2.timestamp < timeout then firstTimedOut ctrl cmd timeout rest
    else if !(ctrl.is_ready_cmd cmd kv.1) then firstTimedOut ctrl cmd timeout rest
    else kv.1

/-- RowPolicy::get_victim, dispatching on the policy type exactly as the
policy lambda table does. -/
def get_victim {Cmd : Type} (p : RowPolicy) (ctrl : RowCtrl Cmd) (cmd : Cmd) : List Int :=
  match p.type with
  | .Closed => firstReady ctrl cmd ctrl.table
  | .ClosedAP => firstReady ctrl cmd ctrl.table
  | .Opened => []
  | .Timeout => firstTimedOut ctrl cmd p.timeout ctrl.table

end RamuSched

namespace RamuCache

/-- Request type enum (Request::Type): READ or WRITE. -/
inductive ReqType where
  | READ
  | WRITE
deriving DecidableEq

/-- Request as the cache hierarchy sees it: address and type.  The
completion continuation carried by the C++ Request is not data; the tick
function below instead returns the list of requests whose callback it
invoked, in invocation order. -/
structure Request where
  addr : Nat
  type : ReqType
deriving DecidableEq

/-- Cache line record (struct Line of Cache.h, described in the spec):
address, tag, lock bit, dirty bit.  The defaults lock = true and
dirty = false are the two-argument constructor Line(addr, tag) used for
newly allocated lines.  The extra field lid models the list-iterator
handle of the source (the spec §9 iterator-handle pattern: a stable slot
id that survives other insertions and removals in the same set); MSHR
entries refer to their line through it. -/
structure Line where
  addr : Nat
  tag : Nat
  lock : Bool := true
  dirty : Bool := false
  lid : Nat := 0
deriving DecidableEq

/-- CacheSystem state: the clock and the two time-ordered delivery
queues. -/
structure CacheSys where
  clk : Nat
  wait_list : List (Nat × Request)
  hit_list : List (Nat × Request)
deriving DecidableEq

/-- One cache level.  Geometry, derived address-decomposition parameters,
per-level latencies, level flags, the lazily populated set map
(cache_lines), the MSHR table (block address, line handle), the retry
list, the fresh-handle counter, and the statistic counters that
Cache_example.cpp increments. -/
structure CacheState where
  assoc : Nat
  mshr_entry_num : Nat
  block_size : Nat
  index_offset : Nat
  index_mask : Nat
  tag_offset : Nat
  latency : Nat
  latency_each : Nat
  is_last_level : Bool
  is_first_level : Bool
  cache_lines : List (Nat × List Line)
  mshr_entries : List (Nat × Nat)
  retry_list : List Request
  next_lid : Nat
  cache_total_access : Nat := 0
  cache_read_access : Nat := 0
  cache_write_access : Nat := 0
  cache_total_miss : Nat := 0
  cache_read_miss : Nat := 0
  cache_write_miss : Nat := 0
  cache_eviction : Nat := 0
  cache_mshr_hit : Nat := 0
  cache_mshr_unavailable : Nat := 0
  cache_set_unavailable : Nat := 0
deriving DecidableEq

/-- Cache hierarchy rooted at one level: the state of this cache and the
list of higher caches (higher_cache in the source).  The non-owning
pointer to the lower cache is not represented; calls a cache makes into
its lower cache are returned as data by the functions below. -/
inductive CacheNode where
  | node (st : CacheState) (higher : List CacheNode)

/-- Modelled from the spec: get_index of the missing Cache.h,
index(a) = (a >> index_offset) & index_mask. -/
def get_index (st : CacheState) (addr : Nat) : Nat :=
  (addr >>> st.index_offset) &&& st.index_mask

/-- Modelled from the spec: get_tag of the missing Cache.h,
tag(a) = a >> tag_offset. -/
def get_tag (st : CacheState) (addr : Nat) : Nat :=
  addr >>> st.tag_offset

/-- Modelled from the spec: align of the missing Cache.h,
align(a) = a & ~(block_size - 1), the block-aligned address; for a
power-of-two block size this equals clearing the offset bits, written on
Nat as subtracting the offset. -/
def align (st : CacheState) (addr : Nat) : Nat :=
  addr - addr % st.block_size

/-- Modelled from the spec: the lazy-population side of get_lines in the
missing Cache.h (documented by the comment in Cache::send): if no set
with this index exists yet, insert an empty one. -/
def get_lines_map (cl : List (Nat × List Line)) (idx : Nat) : List (Nat × List Line) :=
  if (cl.find? (fun kv => kv.1 == idx)).isSome then cl else cl ++ [(idx, [])]

/-- Set contents at an index, the empty list when the set is absent. -/
def linesAt (cl : List (Nat × List Line)) (idx : Nat) : List Line :=
  ((cl.find? (fun kv => kv.1 == idx)).map Prod.snd).getD []

/-- Replace the contents of the set at an index (writing through the
reference that get_lines returned). -/
def setLines (cl : List (Nat × List Line)) (idx : Nat) (ls : List Line) :
    List (Nat × List Line) :=
  cl.map (fun kv => if kv.1 == idx then (kv.1, ls) else kv)

/-- Write back a set, inserting it first when absent. -/
def storeLines (cl : List (Nat × List Line)) (idx : Nat) (ls : List Line) :
    List (Nat × List Line) :=
  setLines (get_lines_map cl idx) idx ls

/-- Update, through a line handle, the one line carrying that handle
(writing through a stored list iterator in the source). -/
def updateLineByLid (cl : List (Nat × List Line)) (lid : Nat) (f : Line → Line) :
    List (Nat × List Line) :=
  cl.map (fun kv => (kv.1, kv.2.map (fun l => if l.lid == lid then f l else l)))

/-- First line of a set whose tag matches the address (the find_if on
l.tag == get_tag(addr) used throughout Cache_example.cpp). -/
def firstTagMatch (st : CacheState) (lines : List Line) (addr : Nat) : Option Line :=
  lines.find? (fun l => l.tag == get_tag st addr)

/-- Cache::is_hit: the first tag-matching line, if any, and the hit holds
only when that line is not locked. -/
def is_hit (st : CacheState) (lines : List Line) (addr : Nat) : Bool :=
  match firstTagMatch st lines addr with
  | none => false
  | some l => !l.lock

/-- Modelled from the spec: hit_mshr of the missing Cache.h — the MSHR
entry whose block-aligned address equals the block-aligned request
address (spec §3, MSHR matching on align). -/
def hit_mshr (st : CacheState) (addr : Nat) : Option (Nat × Nat) :=
  st.mshr_entries.find? (fun e => align st e.1 == align st addr)

/-- Modelled from the spec: all_sets_locked of the missing Cache.h — the
set is full and every line in it is locked (spec §4.1 step 7). -/
def all_sets_locked (st : CacheState) (lines : List Line) : Bool :=
  decide (st.assoc ≤ lines.length) && lines.all (fun l => l.lock)

mutual

/-- Modelled from the spec: check_unlock of the missing Cache.h — the
cache either lacks the block, or holds it unlocked and (spec §4.5, a
victim may not be locked via higher caches) every higher cache again
satisfies check_unlock for the same address.  No set is allocated by the
lookup. -/
def check_unlock (addr : Nat) : CacheNode → Bool
  | .node st hs =>
    match st.cache_lines.find? (fun kv => kv.1 == get_index st addr) with
    | none => true
    | some kv =>
      match firstTagMatch st kv.2 addr with
      | none => true
      | some line => !line.lock && (st.is_first_level || check_unlock_all addr hs)

/-- Conjunction of check_unlock over a list of higher caches. -/
def check_unlock_all (addr : Nat) : List CacheNode → Bool
  | [] => true
  | c :: cs => check_unlock addr c && check_unlock_all addr cs

end

mutual

/-- Cache::invalidate.  Returns the updated subtree, the walk delay and
whether any copy in the subtree was dirty; none models the assertion
assert(!line->lock).  An empty (or freshly allocated) set returns
(0, false); a set without the tag returns (latency_each, false).  The
source reads line->dirty after erasing the line (undefined in C++); the
model uses the dirty bit saved before the erase, which is the value the
spec §4.3 describes. -/
def invalidate (addr : Nat) : CacheNode → Option (CacheNode × Nat × Bool)
  | .node st hs =>
    let delay := st.latency_each
    let idx := get_index st addr
    let cl := get_lines_map st.cache_lines idx
    let lines := linesAt cl idx
    if lines.isEmpty then
      some (.node { st with cache_lines := cl } hs, 0, false)
    else
      match firstTagMatch st lines addr with
      | none => some (.node { st with cache_lines := cl } hs, delay, false)
      | some line =>
        if line.lock then none
        else
          let lines2 := lines.eraseP (fun l => l.tag == get_tag st addr)
          let st2 := { st with cache_lines := setLines cl idx lines2 }
          match hs with
          | [] => some (.node st2 [], delay, line.dirty)
          | _ :: _ =>
            match invalidate_walk addr delay line.dirty hs delay false with
            | none => none
            | some (hs2, maxd, dr) => some (.node st2 hs2, maxd, dr)

/-- Loop of Cache::invalidate over the higher caches, accumulating
max_delay (factor two on a dirty child) and the dirty flag
dirty = dirty OR local dirty OR child dirty. -/
def invalidate_walk (addr delay : Nat) (ldirty : Bool) :
    List CacheNode → Nat → Bool → Option (List CacheNode × Nat × Bool)
  | [], maxd, dirty => some ([], maxd, dirty)
  | hc :: rest, maxd, dirty =>
    match invalidate addr hc with
    | none => none
    | some (hc2, d, dr) =>
      let maxd2 := if dr then max maxd (delay + d * 2) else max maxd (delay + d)
      let dirty2 := dirty || ldirty || dr
      match invalidate_walk addr delay ldirty rest maxd2 dirty2 with
      | none => none
      | some (rest2, m, dd) => some (hc2 :: rest2, m, dd)

end

/-- Cache::refresh_lru_lower: re-MRU the line for addr (push a fresh
unlocked line with the OR-ed dirty bit, erase the old one); none models
the two assertions that the set and the tag exist. -/
def refresh_lru_lower (st : CacheState) (addr : Nat) (dirty : Bool) : Option CacheState :=
  match st.cache_lines.find? (fun kv => kv.1 == get_index st addr) with
  | none => none
  | some kv =>
    match firstTagMatch st kv.2 addr with
    | none => none
    | some line =>
      let fresh : Line :=
        { addr := addr, tag := get_tag st addr, lock := false,
          dirty := dirty || line.dirty, lid := st.next_lid }
      let lines2 := (kv.2 ++ [fresh]).eraseP (fun l => l.tag == get_tag st addr)
      some { st with cache_lines := setLines st.cache_lines kv.1 lines2,
                     next_lid := st.next_lid + 1 }

/-- Loop of Cache::evict over the higher caches: invalidate each one,
take the max over delay + (child dirty ? latency_each : 0), and fold the
child dirty bits (and the victim dirty bit) into the accumulated flag. -/
def evict_walk (latEach addr : Nat) (vdirty : Bool) :
    List CacheNode → Nat → Bool → Option (List CacheNode × Nat × Bool)
  | [], t, d => some ([], t, d)
  | hc :: rest, t, d =>
    match invalidate addr hc with
    | none => none
    | some (hc2, d1, dr) =>
      let t2 := max t (d1 + if dr then latEach else 0)
      let d2 := d || dr || vdirty
      match evict_walk latEach addr vdirty rest t2 d2 with
      | none => none
      | some (rest2, t3, d3) => some (hc2 :: rest2, t3, d3)

/-- Cache::evict.  Invalidates the victim in all higher caches; if not
last level, the call lower_cache->refresh_lru_lower(victim.addr, dirty)
is returned as the final Option (Nat x Bool) component; if last level and
the accumulated flag is dirty, a WRITE request for the victim address is
appended to cachesys.wait_list at clk + invalidate_time + latency; in
every case the victim line is erased from the set. -/
def evict (st : CacheState) (hs : List CacheNode) (sys : CacheSys)
    (lines : List Line) (victim : Line) :
    Option (CacheState × List CacheNode × CacheSys × List Line × Option (Nat × Bool)) :=
  let st1 := { st with cache_eviction := st.cache_eviction + 1 }
  let addr := victim.addr
  match evict_walk st.latency_each addr victim.dirty hs 0 victim.dirty with
  | none => none
  | some (hs2, invTime, dirty) =>
    let lines2 := lines.eraseP (fun l => l.lid == victim.lid)
    if !st.is_last_level then
      some (st1, hs2, sys, lines2, some (addr, dirty))
    else
      let sys2 :=
        if dirty then
          { sys with wait_list :=
              sys.wait_list ++ [(sys.clk + invTime + st.latency, ⟨addr, .WRITE⟩)] }
        else sys
      some (st1, hs2, sys2, lines2, none)

/-- Cache::need_eviction: a tag duplicate trips assert(false) (none);
otherwise eviction is needed exactly when the set is at capacity. -/
def need_eviction (st : CacheState) (lines : List Line) (addr : Nat) : Option Bool :=
  if lines.any (fun l => get_tag st addr == l.tag) then none
  else some (decide (st.assoc ≤ lines.length))

/-- Victim eligibility in Cache::allocate_line: the line is unlocked and,
unless this is the first level, every higher cache satisfies
check_unlock for the line address. -/
def victim_ok (st : CacheState) (hs : List CacheNode) (line : Line) : Bool :=
  !line.lock && (st.is_first_level || check_unlock_all line.addr hs)

/-- Result of Cache::allocate_line: fail models an assertion failure (in
need_eviction or inside evict); noLine models returning lines.end() when
no eligible victim exists; ok carries the updated level, higher caches,
system, set (with the fresh locked line at the back), the
refresh_lru_lower call evict made, and the handle of the new line. -/
inductive AllocOut where
  | fail
  | noLine
  | ok (st : CacheState) (hs : List CacheNode) (sys : CacheSys)
      (lines : List Line) (refresh : Option (Nat × Bool)) (newLid : Nat)

/-- Cache::allocate_line: evict (front-most eligible victim) when the set
is at capacity, then append a fresh Line(addr, tag) with lock on and
dirty off. -/
def allocate_line (st : CacheState) (hs : List CacheNode) (sys : CacheSys)
    (lines : List Line) (addr : Nat) : AllocOut :=
  match need_eviction st lines addr with
  | none => .fail
  | some true =>
    match lines.find? (victim_ok st hs) with
    | none => .noLine
    | some victim =>
      match evict st hs sys lines victim with
      | none => .fail
      | some (st2, hs2, sys2, lines2, refresh) =>
        let newline : Line := { addr := addr, tag := get_tag st2 addr, lid := st2.next_lid }
        .ok { st2 with next_lid := st2.next_lid + 1 } hs2 sys2
          (lines2 ++ [newline]) refresh st2.next_lid
  | some false =>
    let newline : Line := { addr := addr, tag := get_tag st addr, lid := st.next_lid }
    .ok { st with next_lid := st.next_lid + 1 } hs sys
      (lines ++ [newline]) none st.next_lid

/-- Result of Cache::send: the updated level, higher caches and system;
the refresh_lru_lower call made by an eviction, if any; the request
forwarded to the lower cache, if any; and the bool send returns. -/
structure SendOut where
  st : CacheState
  hs : List CacheNode
  sys : CacheSys
  refresh_lower : Option (Nat × Bool)
  forwarded : Option Request
  result : Bool

/-- Miss half of Cache::send (everything after the hit test fails): miss
counters, write-miss downgrade to READ, MSHR merge, MSHR-full and
locked-set refusals, allocation, MSHR insertion and forwarding.  The
outcome of lower_cache->send is supplied by the oracle lowerSend; a
refused forward is appended to retry_list; at the last level the request
is appended to cachesys.wait_list instead. -/
def send_miss (lowerSend : Request → Bool) (st : CacheState) (hs : List CacheNode)
    (sys : CacheSys) (idx : Nat) (lines : List Line) (req : Request) : Option SendOut :=
  let st := { st with cache_total_miss := st.cache_total_miss + 1 }
  let st :=
    if req.type == .WRITE then { st with cache_write_miss := st.cache_write_miss + 1 }
    else { st with cache_read_miss := st.cache_read_miss + 1 }
  let dirty := req.type == .WRITE
  let req := { req with type := ReqType.READ }
  match hit_mshr st req.addr with
  | some e =>
    let st := { st with
      cache_mshr_hit := st.cache_mshr_hit + 1,
      cache_lines := updateLineByLid st.cache_lines e.2
        (fun l => { l with dirty := dirty || l.dirty }) }
    some ⟨st, hs, sys, none, none, true⟩
  | none =>
    if st.mshr_entries.length == st.mshr_entry_num then
      some ⟨{ st with cache_mshr_unavailable := st.cache_mshr_unavailable + 1 },
            hs, sys, none, none, false⟩
    else if all_sets_locked st lines then
      some ⟨{ st with cache_set_unavailable := st.cache_set_unavailable + 1 },
            hs, sys, none, none, false⟩
    else
      match allocate_line st hs sys lines req.addr with
      | .fail => none
      | .noLine => some ⟨st, hs, sys, none, none, false⟩
      | .ok st2 hs2 sys2 lines2 refresh newLid =>
        let lines3 := lines2.map (fun l => if l.lid == newLid then { l with dirty := dirty } else l)
        let st3 := { st2 with
          cache_lines := storeLines st2.cache_lines idx lines3,
          mshr_entries := st2.mshr_entries ++ [(req.addr, newLid)] }
        if !st3.is_last_level then
          if !(lowerSend req) then
            some ⟨{ st3 with retry_list := st3.retry_list ++ [req] },
                  hs2, sys2, refresh, some req, true⟩
          else
            some ⟨st3, hs2, sys2, refresh, some req, true⟩
        else
          some ⟨st3, hs2,
                { sys2 with wait_list := sys2.wait_list ++ [(sys2.clk + st3.latency, req)] },
                refresh, none, true⟩

/-- Cache::send.  Access counters, lazy set lookup, hit test (first
tag-matching line, hit only when unlocked: hit re-MRUs the line with the
OR-ed dirty bit and appends (clk + latency, req) to cachesys.hit_list),
otherwise the miss half.  none models an assertion failure on the miss
path. -/
def send (lowerSend : Request → Bool) (st : CacheState) (hs : List CacheNode)
    (sys : CacheSys) (req : Request) : Option SendOut :=
  let st := { st with cache_total_access := st.cache_total_access + 1 }
  let st :=
    if req.type == .WRITE then { st with cache_write_access := st.cache_write_access + 1 }
    else { st with cache_read_access := st.cache_read_access + 1 }
  let idx := get_index st req.addr
  let cl := get_lines_map st.cache_lines idx
  let lines := linesAt cl idx
  let st := { st with cache_lines := cl }
  match firstTagMatch st lines req.addr with
  | some line =>
    if !line.lock then
      let fresh : Line :=
        { addr := req.addr, tag := get_tag st req.addr, lock := false,
          dirty := line.dirty || (req.type == .WRITE), lid := st.next_lid }
      let lines2 := (lines ++ [fresh]).eraseP (fun l => l.tag == get_tag st req.addr)
      let st2 := { st with cache_lines := setLines cl idx lines2, next_lid := st.next_lid + 1 }
      let sys2 := { sys with hit_list := sys.hit_list ++ [(sys.clk + st.latency, req)] }
      some ⟨st2, hs, sys2, none, none, true⟩
    else
      send_miss lowerSend st hs sys idx lines req
  | none =>
    send_miss lowerSend st hs sys idx lines req

/-- Hit predicate of Cache::send on the pre-call state: the target set
(after the lazy lookup) holds a tag-matching line and its first
tag-matching line is unlocked. -/
def hitP (st : CacheState) (addr : Nat) : Bool :=
  is_hit st (linesAt st.cache_lines (get_index st addr)) addr

/-- Merge predicate of Cache::send on the pre-call state: an MSHR entry
block-matches the request address. -/
def mergeP (st : CacheState) (addr : Nat) : Bool :=
  (hit_mshr st addr).isSome

/-- MSHR-full predicate of Cache::send on the pre-call state. -/
def mshrFullP (st : CacheState) : Bool :=
  st.mshr_entries.length == st.mshr_entry_num

/-- Locked-out-set predicate of Cache::send on the pre-call state. -/
def allLockedP (st : CacheState) (addr : Nat) : Bool :=
  all_sets_locked st (linesAt st.cache_lines (get_index st addr))

/-- No-victim predicate of Cache::send on the pre-call state: the target
set is at capacity and no line in it is an eligible victim. -/
def noVictimP (st : CacheState) (hs : List CacheNode) (addr : Nat) : Bool :=
  let lines := linesAt st.cache_lines (get_index st addr)
  decide (st.assoc ≤ lines.length) && (lines.find? (victim_ok st hs)).isNone

/-- Cache::callback at one level: locate the MSHR entry whose
block-aligned address equals align(req.addr); if found, clear the lock of
the line it references and erase the entry; otherwise change nothing. -/
def callback_local (st : CacheState) (req : Request) : CacheState :=
  match st.mshr_entries.find? (fun e => align st e.1 == align st req.addr) with
  | none => st
  | some e =>
    { st with
      cache_lines := updateLineByLid st.cache_lines e.2 (fun l => { l with lock := false }),
      mshr_entries := st.mshr_entries.eraseP (fun e2 => align st e2.1 == align st req.addr) }

mutual

/-- Cache::callback over the hierarchy: handle this level, then recurse
into every higher cache. -/
def callback (req : Request) : CacheNode → CacheNode
  | .node st hs => .node (callback_local st req) (callback_list req hs)

/-- Cache::callback mapped over a list of higher caches, in order. -/
def callback_list (req : Request) : List CacheNode → List CacheNode
  | [] => []
  | c :: cs => callback req c :: callback_list req cs

end

/-- Retry-list drain loop of Cache::tick, transcribed iterator-for-loop
faithfully: when lower_cache->send absorbs the entry under the iterator,
erase returns the next position and the for-increment then moves past it,
so the entry after an absorbed one is skipped; erasing the last entry
makes the for-increment act on end(), which is undefined behavior in C++
and is modelled as none. -/
def tick_retry_drain (lowerSend : Request → Bool) : List Request → Option (List Request)
  | [] => some []
  | r :: rest =>
    if lowerSend r then
      match rest with
      | [] => none
      | r2 :: rest2 => (tick_retry_drain lowerSend rest2).map (fun l => r2 :: l)
    else (tick_retry_drain lowerSend rest).map (fun l => r :: l)

/-- Wait-list drain loop of CacheSystem::tick: walk the list while the
entry under the iterator is ready (clk at or past its ready time); a
refused send_memory leaves the entry and moves on; the first not-ready
entry stops the walk. -/
def drainWait (send_memory : Request → Bool) (clk : Nat) :
    List (Nat × Request) → List (Nat × Request)
  | [] => []
  | e :: rest =>
    if clk ≥ e.1 then
      if send_memory e.2 then drainWait send_memory clk rest
      else e :: drainWait send_memory clk rest
    else e :: rest

/-- Hit-list drain loop of CacheSystem::tick: walk the whole list,
invoking (collecting) the callback of every ready entry and removing it.
Returns the remaining list and the fired requests in invocation order. -/
def drainHit (clk : Nat) : List (Nat × Request) → List (Nat × Request) × List Request
  | [] => ([], [])
  | e :: rest =>
    let (keep, fired) := drainHit clk rest
    if clk ≥ e.1 then (keep, e.2 :: fired)
    else (e :: keep, fired)

/-- CacheSystem::tick: advance the clock, drain wait_list (attempting
send_memory on each ready entry), then drain hit_list.  Returns the new
system state and the requests whose completion callback was invoked, in
order. -/
def CacheSys.tick (send_memory : Request → Bool) (sys : CacheSys) :
    CacheSys × List Request :=
  let clk := sys.clk + 1
  let wl := drainWait send_memory clk sys.wait_list
  let (hl, fired) := drainHit clk sys.hit_list
  (⟨clk, wl, hl⟩, fired)

mutual

/-- Hierarchy well-formedness used by the lock-safety claim: a first-level
cache has no higher caches, recursively. -/
def node_wf : CacheNode → Bool
  | .node st hs => (!st.is_first_level || hs.isEmpty) && node_wf_list hs

/-- Hierarchy well-formedness over a list of caches. -/
def node_wf_list : List CacheNode → Bool
  | [] => true
  | c :: cs => node_wf c && node_wf_list cs

end

end RamuCache

namespace RamuSched

/-- Concrete controller for the scheduler counterexample: no bank is
ready, exactly the request with addr_vec [0, 0, 7] is a row hit, every
bank has an open row, and the PRE scope keeps two address levels, so both
fixture requests share the rowgroup [0, 0]. -/
def ctrlC3 : SchedCtrl :=
  { is_ready := fun _ => false
    is_row_hit := fun r => decide (r.addr_vec = [0, 0, 7])
    is_row_open := fun _ => true
    preScope := 1 }

/-- Older request, not a row hit, with an open row in its bank. -/
def reqC3X : SReq := { arrive := 1, addr_vec := [0, 0, 5] }

/-- Younger request that is a row hit in the same rowgroup. -/
def reqC3Y : SReq := { arrive := 10, addr_vec := [0, 0, 7] }

/-- Concrete controller for the FRFCFS-priority witness: every request is
ready and a row hit. -/
def ctrlC2W : SchedCtrl :=
  { is_ready := fun _ => true
    is_row_hit := fun _ => true
    is_row_open := fun _ => true
    preScope := 1 }

/-- Ready-and-row-hit status of a request, the quantity the FRFCFS
comparator prioritizes. -/
def rr (ctrl : SchedCtrl) (r : SReq) : Bool :=
  ctrl.is_ready r && ctrl.is_row_hit r

/-- Strict FRFCFS preference: x strictly precedes y when x is
ready-and-row-hit and y is not, or when both have the same status and x
arrived strictly earlier. -/
def frLT (ctrl : SchedCtrl) (x y : SReq) : Prop :=
  (rr ctrl x = true ∧ rr ctrl y = false) ∨
    (rr ctrl x = rr ctrl y ∧ x.arrive < y.arrive)

end RamuSched

namespace RamuCache

/-- Concrete single-level (L3-like) cache with the geometry of the
concrete scenarios in the spec: 32 KiB, 8-way, 64-byte blocks, 16 MSHR
entries, latency 40, structural latency 4, and empty state. -/
def exSt : CacheState :=
  { assoc := 8, mshr_entry_num := 16, block_size := 64,
    index_offset := 6, index_mask := 63, tag_offset := 12,
    latency := 40, latency_each := 4,
    is_last_level := true, is_first_level := true,
    cache_lines := [], mshr_entries := [], retry_list := [], next_lid := 0 }

/-- Variant of the concrete cache with no MSHR capacity at all. -/
def exStNoMshr : CacheState := { exSt with mshr_entry_num := 0 }

/-- Variant of the concrete cache holding one locked line for block 64
and its MSHR entry. -/
def exStLocked : CacheState :=
  { exSt with
    cache_lines := [(1, [{ addr := 64, tag := 0, lock := true, dirty := false, lid := 0 }])],
    mshr_entries := [(64, 0)],
    next_lid := 1 }

/-- Concrete fixture request A. -/
def reqA : Request := ⟨256, .READ⟩

/-- Concrete fixture request B. -/
def reqB : Request := ⟨512, .READ⟩

/-- Concrete unlocked dirty victim line used by the eviction witness. -/
def victC5 : Line := { addr := 64, tag := 1, lock := false, dirty := true, lid := 5 }

/-- Concrete system state for the tick counterexample: at clock 4 the
wait list holds a not-yet-ready entry in front of an already-ready
one. -/
def sysC6 : CacheSys := ⟨4, [(10, reqA), (5, reqB)], []⟩

/-- MSHR matching predicate of Cache::callback on a given level: the
entry is for the same block-aligned address as the request. -/
def alignPred (st : CacheState) (req : Request) : Nat × Nat → Bool :=
  fun e => align st e.1 == align st req.addr

/-- Concrete fixture request for the send witness: a cold READ to
block 64. -/
def exReq : Request := ⟨64, .READ⟩

/-- Concrete empty cache system at clock 0. -/
def exSys : CacheSys := ⟨0, [], []⟩

/-- The result of sending the fixture READ through the concrete empty
cache (the send is absorbed, so the Option is some). -/
def exSendOut : SendOut := (send (fun _ => true) exSt [] exSys exReq).get (by rfl)

end RamuCache

namespace RamuSched

/-- The Closed and ClosedAP loop returns the empty vector or a table key
that is ready. -/
theorem firstReady_valid {Cmd : Type} (ctrl : RowCtrl Cmd) (cmd : Cmd)
    (l : List (List Int × RTEntry)) :
    firstReady ctrl cmd l = [] ∨
      ∃ e, (firstReady ctrl cmd l, e) ∈ l ∧
        ctrl.is_ready_cmd cmd (firstReady ctrl cmd l) = true := by
  induction l with
  | nil => exact Or.inl rfl
  | cons kv rest ih =>
    cases hx : ctrl.is_ready_cmd cmd kv.1 with
    | false =>
      rcases ih with h | ⟨e, hm, hr⟩
      · left; simpa [firstReady, hx] using h
      · right
        refine ⟨e, ?_, ?_⟩
        · simp only [firstReady, hx]
          exact List.mem_cons_of_mem _ hm
        · simpa [firstReady, hx] using hr
    | true =>
      right
      refine ⟨kv.2, ?_, ?_⟩ <;> simp [firstReady, hx]

/-- The Timeout loop equals: first table entry that is both past the
timeout and ready, projected to its key, or the empty vector. -/
theorem firstTimedOut_eq_find {Cmd : Type} (ctrl : RowCtrl Cmd) (cmd : Cmd) (t : Int)
    (l : List (List Int × RTEntry)) :
    firstTimedOut ctrl cmd t l =
      ((l.find? (fun kv =>
          decide (t ≤ ctrl.clk - kv.2.timestamp) && ctrl.is_ready_cmd cmd kv.1)).map
        Prod.fst).getD [] := by
  induction l with
  | nil => rfl
  | cons kv rest ih =>
    rw [List.find?_cons]
    by_cases hT : ctrl.clk - kv.2.timestamp < t
    · have hle : ¬ t ≤ ctrl.clk - kv.2.timestamp := by omega
      simpa [firstTimedOut, hT, hle] using ih
    · cases hx : ctrl.is_ready_cmd cmd kv.1 with
      | false => simpa [firstTimedOut, hT, hx] using ih
      | true =>
        have hle : t ≤ ctrl.clk - kv.2.timestamp := by omega
        simp [firstTimedOut, hT, hx, hle]

/-- C9: RowPolicy::get_victim returns either the empty vector or a
rowgroup key from the row table for which is_ready(cmd, key) holds; the
Opened policy always returns the empty vector; the Timeout policy returns
the key of the first table entry satisfying clk - timestamp at least
timeout that is ready, or empty if none exists; and the source defaults
are type Timeout with timeout = 50. -/
theorem rowpolicy_get_victim_valid :
    (∀ (Cmd : Type) (p : RowPolicy) (ctrl : RowCtrl Cmd) (cmd : Cmd),
      get_victim p ctrl cmd = [] ∨
        ∃ e, (get_victim p ctrl cmd, e) ∈ ctrl.table ∧
          ctrl.is_ready_cmd cmd (get_victim p ctrl cmd) = true) ∧
    (∀ (Cmd : Type) (ctrl : RowCtrl Cmd) (cmd : Cmd) (t : Int),
      get_victim { type := .Opened, timeout := t } ctrl cmd = []) ∧
    (∀ (Cmd : Type) (ctrl : RowCtrl Cmd) (cmd : Cmd) (t : Int),
      get_victim { type := .Timeout, timeout := t } ctrl cmd =
        ((ctrl.table.find? (fun kv =>
            decide (t ≤ ctrl.clk - kv.2.timestamp) && ctrl.is_ready_cmd cmd kv.1)).map
          Prod.fst).getD []) ∧
    ({} : RowPolicy).type = .Timeout ∧ ({} : RowPolicy).timeout = 50 := by
  refine ⟨?_, ?_, ?_, rfl, rfl⟩
  · intro Cmd p ctrl cmd
    match hp : p.type with
    | .Closed => simpa [get_victim, hp] using firstReady_valid ctrl cmd ctrl.table
    | .ClosedAP => simpa [get_victim, hp] using firstReady_valid ctrl cmd ctrl.table
    | .Opened => left; simp [get_victim, hp]
    | .Timeout =>
      rw [show get_victim p ctrl cmd = firstTimedOut ctrl cmd p.timeout ctrl.table by
        simp [get_victim, hp]]
      rw [firstTimedOut_eq_find]
      cases hf : ctrl.table.find? (fun kv =>
          decide (p.timeout ≤ ctrl.clk - kv.2.timestamp) && ctrl.is_ready_cmd cmd kv.1) with
      | none => left; rfl
      | some kv =>
        right
        have hmem := List.mem_of_find?_eq_some hf
        have hp2 := List.find?_some hf
        simp only [Bool.and_eq_true] at hp2
        exact ⟨kv.2, by simpa using hmem, by simpa using hp2.2⟩
  · intro Cmd ctrl cmd t
    rfl
  · intro Cmd ctrl cmd t
    exact firstTimedOut_eq_find ctrl cmd t ctrl.table

/-- C3 counterexample: for the BLISS (and Custom) scheduler type on the
queue [reqC3X, reqC3Y], the comparator-preferred element is reqC3X at
position 0 (it is older and neither request is ready-and-row-hit), yet
get_head runs the FRFCFS row-conflict rescan, filters reqC3X out (it is
not a row hit, has an open row, and its rowgroup collides with the
row-hit reqC3Y), and returns position 1. -/
theorem bliss_custom_not_plain_scan_cex :
    get_head ctrlC3 .BLISS [reqC3X, reqC3Y] = some 1 ∧
    get_head ctrlC3 .Custom [reqC3X, reqC3Y] = some 1 ∧
    get_head_plain_scan ctrlC3 .BLISS [reqC3X, reqC3Y] = some 0 ∧
    get_head_plain_scan ctrlC3 .Custom [reqC3X, reqC3Y] = some 0 ∧
    get_head ctrlC3 .BLISS [reqC3X, reqC3Y] ≠
      get_head_plain_scan ctrlC3 .BLISS [reqC3X, reqC3Y] := by
  refine ⟨by decide, by decide, by decide, by decide, by decide⟩

/-- C3 amended: for the BLISS and Custom scheduler types, get_head takes
the same else branch as FRFCFS (comparator scan, direct return when the
best is ready-and-row-hit, otherwise the row-conflict rescan with the
FCFSBank comparator), and since their baseline comparators coincide with
the FRFCFS comparator, get_head agrees with FRFCFS on every controller
and queue; it is not the plain comparator scan. -/
theorem bliss_custom_head_eq_frfcfs :
    ∀ (ctrl : SchedCtrl) (q : List SReq),
      get_head ctrl .BLISS q = get_head ctrl .FRFCFS q ∧
      get_head ctrl .Custom q = get_head ctrl .FRFCFS q := by
  intro ctrl q
  have hb : compare ctrl .BLISS = compare ctrl .FRFCFS := rfl
  have hc : compare ctrl .Custom = compare ctrl .FRFCFS := rfl
  constructor <;> (cases q <;> simp [get_head, hb, hc])

end RamuSched

namespace RamuCache

/-- C7: the retry-list drain of Cache::tick does not re-send every entry.
With a lower cache that absorbs everything, draining [reqA, reqB] erases
reqA, and the erase-then-increment iterator pattern skips reqB, which
stays in the retry list without lower_cache->send ever being called on it
during this tick; draining the singleton [reqA] erases it and then
increments the end iterator, which is undefined behavior in C++ (modelled
none). -/
theorem tick_retry_drain_skips :
    tick_retry_drain (fun _ => true) [reqA, reqB] = some [reqB] ∧
    tick_retry_drain (fun _ => true) [reqA] = none := by
  exact ⟨rfl, rfl⟩

/-- Wait-list drain characterization: the scan covers only the longest
ready prefix; inside it the refused entries are kept; the first not-ready
entry and everything after it stay untouched. -/
theorem drainWait_eq (sm : Request → Bool) (clk : Nat) (l : List (Nat × Request)) :
    drainWait sm clk l =
      (l.takeWhile (fun e => decide (clk ≥ e.1))).filter (fun e => !sm e.2) ++
        l.dropWhile (fun e => decide (clk ≥ e.1)) := by
  induction l with
  | nil => rfl
  | cons e rest ih =>
    by_cases hr : clk ≥ e.1
    · cases hs : sm e.2 with
      | true => simp [drainWait, hr, List.takeWhile_cons, List.dropWhile_cons, hs, ih]
      | false => simp [drainWait, hr, List.takeWhile_cons, List.dropWhile_cons, hs, ih]
    · simp [drainWait, hr, List.takeWhile_cons, List.dropWhile_cons]

/-- Hit-list drain characterization: every ready entry fires (in list
order) and is removed; every other entry is kept. -/
theorem drainHit_eq (clk : Nat) (l : List (Nat × Request)) :
    drainHit clk l =
      (l.filter (fun e => !decide (clk ≥ e.1)),
       (l.filter (fun e => decide (clk ≥ e.1))).map Prod.snd) := by
  induction l with
  | nil => rfl
  | cons e rest ih =>
    by_cases hr : clk ≥ e.1 <;> simp [drainHit, hr, ih, List.filter_cons]

/-- C6 counterexample: with send_memory accepting everything, ticking
from clock 4 with wait_list [(10, reqA), (5, reqB)] advances the clock to
5; the entry (5, reqB) then satisfies clk at or past its ready time and
send_memory succeeds on it, yet it is not removed, because the wait-list
walk stops at the first not-yet-ready entry (10, reqA). -/
theorem cachesys_tick_blocked_cex :
    (CacheSys.tick (fun _ => true) sysC6).1.clk = 5 ∧
    (CacheSys.tick (fun _ => true) sysC6).1.wait_list = [(10, reqA), (5, reqB)] ∧
    (5 ≥ (5 : Nat)) ∧ (fun _ => true : Request → Bool) reqB = true := by
  exact ⟨rfl, rfl, by decide, rfl⟩

/-- C6 amended: each tick increments clk by exactly one and drains
wait_list before hit_list; the wait-list scan walks the list in order but
stops at the first entry whose ready time is still in the future, and
within that scanned prefix an entry is removed exactly when send_memory
succeeds on it (a refused entry stays in place and later ready entries of
the prefix are still tried); afterwards the completion callback of every
hit_list entry with ready_time at most clk is invoked and that entry
removed, in insertion order. -/
theorem cachesys_tick_spec (sm : Request → Bool) (sys : CacheSys) :
    (CacheSys.tick sm sys).1.clk = sys.clk + 1 ∧
    (CacheSys.tick sm sys).1.wait_list =
      (sys.wait_list.takeWhile (fun e => decide (sys.clk + 1 ≥ e.1))).filter
          (fun e => !sm e.2) ++
        sys.wait_list.dropWhile (fun e => decide (sys.clk + 1 ≥ e.1)) ∧
    (CacheSys.tick sm sys).1.hit_list =
      sys.hit_list.filter (fun e => !decide (sys.clk + 1 ≥ e.1)) ∧
    (CacheSys.tick sm sys).2 =
      (sys.hit_list.filter (fun e => decide (sys.clk + 1 ≥ e.1))).map Prod.snd := by
  refine ⟨rfl, ?_, ?_, ?_⟩
  · simpa [CacheSys.tick] using drainWait_eq sm (sys.clk + 1) sys.wait_list
  · simp [CacheSys.tick, drainHit_eq]
  · simp [CacheSys.tick, drainHit_eq]

/-- Helper: find? distributes over append through Option.or. -/
theorem find_or_append {α : Type} (p : α → Bool) (l1 l2 : List α) :
    (l1 ++ l2).find? p = (l1.find? p).or (l2.find? p) := by
  induction l1 with
  | nil => simp
  | cons a l1 ih =>
    cases ha : p a with
    | true => simp [List.find?_cons, ha]
    | false => simp [List.find?_cons, ha, ih]

/-- Helper: the lazy empty-set insertion of get_lines changes no set
contents. -/
theorem linesAt_get_lines_map (cl : List (Nat × List Line)) (idx j : Nat) :
    linesAt (get_lines_map cl idx) j = linesAt cl j := by
  unfold get_lines_map
  by_cases hp : (cl.find? (fun kv => kv.1 == idx)).isSome
  · simp [hp]
  · rw [if_neg hp]
    unfold linesAt
    rw [find_or_append]
    cases hf : cl.find? (fun kv => kv.1 == j) with
    | some kv => simp
    | none =>
      by_cases hj : idx = j
      · subst hj
        simp [List.find?]
      · simp [List.find?, show (idx == j) = false by simp [hj]]

/-- C4 counterexample: on the concrete empty cache (latency_each = 4),
invalidating address 64 whose set is absent returns walk delay 0, not
latency_each = 4 as the claim states, and 0 is not 4. -/
theorem invalidate_absent_delay_cex :
    (invalidate 64 (.node exSt [])).map (fun r => r.2) = some (0, false) ∧
    exSt.latency_each = 4 ∧ (0 : Nat) ≠ 4 :=
  ⟨rfl, rfl, by decide⟩

/-- C4 amended: when the block is not resident at this level,
Cache::invalidate erases no line and reports not-dirty; it returns delay
latency_each[level] when the target set exists and is non-empty but holds
no matching tag, and delay 0 when the set is absent or empty (the source
returns make_pair(0, false) on an empty set, allocating the empty set as
a side effect of the lookup). -/
theorem invalidate_not_resident (st : CacheState) (hs : List CacheNode) (addr : Nat)
    (h : firstTagMatch st (linesAt st.cache_lines (get_index st addr)) addr = none) :
    invalidate addr (.node st hs) =
      some (.node { st with cache_lines := get_lines_map st.cache_lines (get_index st addr) } hs,
        (if (linesAt st.cache_lines (get_index st addr)).isEmpty then 0 else st.latency_each),
        false) ∧
    ∀ i, linesAt (get_lines_map st.cache_lines (get_index st addr)) i =
      linesAt st.cache_lines i := by
  refine ⟨?_, fun i => linesAt_get_lines_map _ _ _⟩
  rw [invalidate]
  rw [linesAt_get_lines_map]
  by_cases he : (linesAt st.cache_lines (get_index st addr)).isEmpty
  · simp [he]
  · simp [he, h]

/-- C4 amended, witness at the concrete empty cache. -/
theorem invalidate_not_resident_witness :
    invalidate 64 (.node exSt []) =
      some (.node { exSt with cache_lines := get_lines_map exSt.cache_lines (get_index exSt 64) } [],
        (if (linesAt exSt.cache_lines (get_index exSt 64)).isEmpty then 0 else exSt.latency_each),
        false) ∧
    ∀ i, linesAt (get_lines_map exSt.cache_lines (get_index exSt 64)) i =
      linesAt exSt.cache_lines i :=
  invalidate_not_resident exSt [] 64 (by rfl)

/-- Helper: the dirty flag accumulated by the eviction walk is true
exactly when the initial flag is, the victim bit is (for a non-empty
walk), or some higher cache reported a dirty invalidation. -/
theorem evict_walk_dirty_iff (le a : Nat) (vd : Bool) :
    ∀ (hs : List CacheNode) (t0 : Nat) (d0 : Bool) (hs2 : List CacheNode) (t : Nat) (d : Bool),
      evict_walk le a vd hs t0 d0 = some (hs2, t, d) →
      (d = true ↔ d0 = true ∨ (hs ≠ [] ∧ vd = true) ∨
        ∃ hc ∈ hs, ∃ r, invalidate a hc = some r ∧ r.2.2 = true) := by
  intro hs
  induction hs with
  | nil =>
    intro t0 d0 hs2 t d hW
    simp only [evict_walk, Option.some.injEq, Prod.mk.injEq] at hW
    obtain ⟨-, -, rfl⟩ := hW
    simp
  | cons hc rest ih =>
    intro t0 d0 hs2 t d hW
    rw [evict_walk] at hW
    cases hInv : invalidate a hc with
    | none => rw [hInv] at hW; exact absurd hW (by simp)
    | some r =>
      obtain ⟨hc2, d1, dr⟩ := r
      rw [hInv] at hW
      simp only at hW
      cases hRest : evict_walk le a vd rest
          (max t0 (d1 + if dr then le else 0)) (d0 || dr || vd) with
      | none => rw [hRest] at hW; exact absurd hW (by simp)
      | some out =>
        obtain ⟨rest2, t3, d3⟩ := out
        rw [hRest] at hW
        simp only [Option.some.injEq, Prod.mk.injEq] at hW
        obtain ⟨-, -, rfl⟩ := hW
        have hIH := ih _ _ _ _ _ hRest
        rw [hIH]
        constructor
        · rintro (h3 | ⟨-, hvd⟩ | ⟨x, hx, hex⟩)
          · simp only [Bool.or_eq_true] at h3
            rcases h3 with (h0 | hdr) | hv
            · exact Or.inl h0
            · exact Or.inr (Or.inr ⟨hc, by simp, (hc2, d1, dr), hInv, hdr⟩)
            · exact Or.inr (Or.inl ⟨by simp, hv⟩)
          · exact Or.inr (Or.inl ⟨by simp, hvd⟩)
          · exact Or.inr (Or.inr ⟨x, List.mem_cons_of_mem _ hx, hex⟩)
        · rintro (h0 | ⟨-, hvd⟩ | ⟨x, hx, r2, hr2, hd2⟩)
          · exact Or.inl (by simp [h0])
          · exact Or.inl (by simp [hvd])
          · rcases List.mem_cons.mp hx with rfl | hx2
            · rw [hInv] at hr2
              have hre : (hc2, d1, dr) = r2 := Option.some.inj hr2
              subst hre
              simp only at hd2
              exact Or.inl (by simp [hd2])
            · exact Or.inr (Or.inr ⟨x, hx2, r2, hr2, hd2⟩)

/-- C5: Cache::evict with the eviction walk producing the updated higher
caches, invalidate time t and accumulated dirty flag d: when not last
level it calls lower_cache->refresh_lru_lower(victim.addr, d) (the final
component) and appends nothing to cachesys.wait_list; when last level it
makes no lower call and appends exactly one WRITE request for victim.addr
at ready time clk + t + latency[level] when d holds, and nothing when d
is false; in every case the victim line is erased from the set and the
eviction counter advances; and d is exactly the victim dirty bit OR some
higher-level invalidation reporting dirty. -/
theorem evict_spec (st : CacheState) (hs : List CacheNode) (sys : CacheSys)
    (lines : List Line) (victim : Line) (hs2 : List CacheNode) (t : Nat) (d : Bool)
    (hW : evict_walk st.latency_each victim.addr victim.dirty hs 0 victim.dirty =
      some (hs2, t, d)) :
    evict st hs sys lines victim =
      some ({ st with cache_eviction := st.cache_eviction + 1 }, hs2,
        (if st.is_last_level then
          (if d then
            { sys with wait_list :=
                sys.wait_list ++ [(sys.clk + t + st.latency, ⟨victim.addr, .WRITE⟩)] }
          else sys)
        else sys),
        lines.eraseP (fun l => l.lid == victim.lid),
        (if st.is_last_level then none else some (victim.addr, d))) ∧
    (d = true ↔ victim.dirty = true ∨
      ∃ hc ∈ hs, ∃ r, invalidate victim.addr hc = some r ∧ r.2.2 = true) := by
  constructor
  · cases hL : st.is_last_level <;> cases hd : d <;> simp [evict, hW, hL, hd]
  · rw [evict_walk_dirty_iff st.latency_each victim.addr victim.dirty hs 0 victim.dirty hs2 t d hW]
    constructor
    · rintro (hv | ⟨-, hv⟩ | hex)
      · exact Or.inl hv
      · exact Or.inl hv
      · exact Or.inr hex
    · rintro (hv | hex)
      · exact Or.inl hv
      · exact Or.inr (Or.inr hex)

/-- C5 witness: concrete last-level eviction of a dirty unlocked victim
with no higher caches appends exactly one WRITE for the victim address at
clk + 0 + latency and erases the victim. -/
theorem evict_spec_witness :
    evict exSt [] ⟨7, [], []⟩ [victC5] victC5 =
      some ({ exSt with cache_eviction := 1 }, [],
        ⟨7, [(47, ⟨64, .WRITE⟩)], []⟩, [], none) :=
  (evict_spec exSt [] ⟨7, [], []⟩ [victC5] victC5 [] 0 true rfl).1

/-- Helper: updating one line through its handle rewrites every set
pointwise, touching only lines that carry the handle. -/
theorem linesAt_updateLineByLid (cl : List (Nat × List Line)) (lid : Nat)
    (f : Line → Line) (i : Nat) :
    linesAt (updateLineByLid cl lid f) i =
      (linesAt cl i).map (fun l => if l.lid == lid then f l else l) := by
  induction cl with
  | nil => rfl
  | cons kv rest ih =>
    unfold updateLineByLid at ih ⊢
    unfold linesAt at ih ⊢
    cases hk : (kv.1 == i) with
    | true => simp [List.find?_cons, hk]
    | false => simpa [List.find?_cons, hk] using ih

/-- C10: Cache::callback recurses into every higher cache whether or not
this level has a matching MSHR entry (and never trips an assertion: the
local handler is total).  When no MSHR entry block-matches the request
address, the level is left completely unchanged.  When one does, exactly
the first matching entry is removed from the MSHR table and exactly the
line it references has its lock cleared (every other line of every set,
and every other field, is untouched). -/
theorem callback_spec (st : CacheState) (hs : List CacheNode) (req : Request) :
    callback req (.node st hs) = .node (callback_local st req) (callback_list req hs) ∧
    (st.mshr_entries.find? (alignPred st req) = none → callback_local st req = st) ∧
    (∀ e, st.mshr_entries.find? (alignPred st req) = some e →
      (∃ pre post, st.mshr_entries = pre ++ e :: post ∧
        (∀ x ∈ pre, alignPred st req x = false) ∧
        (callback_local st req).mshr_entries = pre ++ post) ∧
      (∀ i, linesAt (callback_local st req).cache_lines i =
        (linesAt st.cache_lines i).map
          (fun l => if l.lid == e.2 then { l with lock := false } else l)) ∧
      (callback_local st req).retry_list = st.retry_list) := by
  refine ⟨rfl, ?_, ?_⟩
  · intro h
    unfold callback_local
    rw [show st.mshr_entries.find? (fun e => align st e.1 == align st req.addr) = none from h]
  · intro e h
    have hsplit := List.find?_eq_some.mp h
    obtain ⟨hp, pre, post, hdec, hpre⟩ := hsplit
    have hcl : callback_local st req =
        { st with
          cache_lines := updateLineByLid st.cache_lines e.2 (fun l => { l with lock := false }),
          mshr_entries := st.mshr_entries.eraseP (alignPred st req) } := by
      unfold callback_local
      rw [show st.mshr_entries.find? (fun e => align st e.1 == align st req.addr) = some e from h]
      rfl
    refine ⟨⟨pre, post, hdec, ?_, ?_⟩, ?_, ?_⟩
    · intro x hx
      have := hpre x hx
      simpa using this
    · rw [hcl]
      simp only
      rw [hdec, List.eraseP_append_right, List.eraseP_cons_of_pos hp]
      intro b hb
      have := hpre b hb
      simp at this
      simp [this]
    · intro i
      rw [hcl]
      exact linesAt_updateLineByLid st.cache_lines e.2 _ i
    · rw [hcl]

/-- C10 witness: on the concrete empty cache no MSHR entry matches, and
the local handler leaves the level unchanged. -/
theorem callback_spec_witness : callback_local exSt reqA = exSt :=
  (callback_spec exSt [] reqA).2.1 rfl

end RamuCache


namespace RamuSched

/-- The FRFCFS comparator keeps its first argument exactly when the
second is not strictly preferred. -/
theorem compareFRFCFS_iff (ctrl : SchedCtrl) (b x : SReq) :
    compareFRFCFS ctrl b x = true ↔ ¬ frLT ctrl x b := by
  simp only [compareFRFCFS, frLT]
  cases hb : rr ctrl b <;> cases hx : rr ctrl x <;>
    simp only [rr] at hb hx <;>
    simp [hb, hx, not_lt]

/-- Strict FRFCFS preference is transitive. -/
theorem frLT_trans (ctrl : SchedCtrl) {x y z : SReq}
    (h1 : frLT ctrl x y) (h2 : frLT ctrl y z) : frLT ctrl x z := by
  unfold frLT at h1 h2 ⊢
  rcases h1 with ⟨ha, hb⟩ | ⟨ha, hb⟩ <;> rcases h2 with ⟨hc, hd⟩ | ⟨hc, hd⟩
  · rw [hb] at hc; exact absurd hc (by simp)
  · exact Or.inl ⟨ha, by rw [← hc, hb]⟩
  · exact Or.inl ⟨by rw [ha, hc], hd⟩
  · exact Or.inr ⟨by rw [ha, hc], by omega⟩

/-- Strict preference transfers across a kept comparison: if r strictly
precedes b and the comparator kept b against x, then r strictly
precedes x. -/
theorem frLT_of_frLT_of_kept (ctrl : SchedCtrl) {r b x : SReq}
    (h1 : frLT ctrl r b) (h2 : ¬ frLT ctrl x b) : frLT ctrl r x := by
  unfold frLT at h1 h2 ⊢
  cases hr : rr ctrl r <;> cases hb : rr ctrl b <;> cases hx : rr ctrl x <;>
    simp [hr, hb, hx] at h1 h2 ⊢ <;> omega

/-- Strict preference against a ready-and-row-hit request forces a
strictly earlier arrival. -/
theorem frLT_arrive (ctrl : SchedCtrl) {r y : SReq}
    (h : frLT ctrl r y) (hy : rr ctrl y = true) : r.arrive < y.arrive := by
  unfold frLT at h
  rcases h with ⟨-, hb⟩ | ⟨-, hb⟩
  · rw [hy] at hb; exact absurd hb (by simp)
  · exact hb

end RamuSched

namespace RamuSched

/-- The comparator fold either keeps the seed or lands on a scanned
element whose position it reports. -/
theorem foldBest_cases (keep : SReq → SReq → Bool) :
    ∀ (xs : List SReq) (i bi : Nat) (b : SReq),
      foldBest keep (bi, b) xs i = (bi, b) ∨
        ∃ j, ∃ hj : j < xs.length, (foldBest keep (bi, b) xs i).1 = i + j ∧
          xs.get ⟨j, hj⟩ = (foldBest keep (bi, b) xs i).2 := by
  intro xs
  induction xs with
  | nil => intro i bi b; exact Or.inl rfl
  | cons x xs ih =>
    intro i bi b
    cases hk : keep b x with
    | true =>
      have hres : foldBest keep (bi, b) (x :: xs) i = foldBest keep (bi, b) xs (i + 1) := by
        simp [foldBest, hk]
      rw [hres]
      rcases ih (i + 1) bi b with h | ⟨j, hj, hidx, hget⟩
      · exact Or.inl h
      · refine Or.inr ⟨j + 1, by simpa using Nat.succ_lt_succ hj, by omega, ?_⟩
        simpa using hget
    | false =>
      have hres : foldBest keep (bi, b) (x :: xs) i = foldBest keep (i, x) xs (i + 1) := by
        simp [foldBest, hk]
      rw [hres]
      rcases ih (i + 1) i x with h | ⟨j, hj, hidx, hget⟩
      · rw [h]
        exact Or.inr ⟨0, by simp, by simp, by simp⟩
      · refine Or.inr ⟨j + 1, by simpa using Nat.succ_lt_succ hj, by omega, ?_⟩
        simpa using hget

/-- Dominance of the FRFCFS comparator fold: whenever the seed or a
scanned element is ready-and-row-hit, the fold result is
ready-and-row-hit and arrived no later. -/
theorem foldBest_fr_dom (ctrl : SchedCtrl) :
    ∀ (xs : List SReq) (i bi : Nat) (b : SReq),
      (rr ctrl b = true →
        rr ctrl (foldBest (compareFRFCFS ctrl) (bi, b) xs i).2 = true ∧
        (foldBest (compareFRFCFS ctrl) (bi, b) xs i).2.arrive ≤ b.arrive) ∧
      (∀ y ∈ xs, rr ctrl y = true →
        rr ctrl (foldBest (compareFRFCFS ctrl) (bi, b) xs i).2 = true ∧
        (foldBest (compareFRFCFS ctrl) (bi, b) xs i).2.arrive ≤ y.arrive) := by
  intro xs
  induction xs with
  | nil =>
    intro i bi b
    exact ⟨fun hb => ⟨hb, le_refl _⟩, fun y hy => absurd hy (List.not_mem_nil y)⟩
  | cons x xs ih =>
    intro i bi b
    cases hk : compareFRFCFS ctrl b x with
    | true =>
      have hnot : ¬ frLT ctrl x b := (compareFRFCFS_iff ctrl b x).mp hk
      have hres : foldBest (compareFRFCFS ctrl) (bi, b) (x :: xs) i =
          foldBest (compareFRFCFS ctrl) (bi, b) xs (i + 1) := by
        simp [foldBest, hk]
      rw [hres]
      obtain ⟨ihb, ihxs⟩ := ih (i + 1) bi b
      refine ⟨ihb, ?_⟩
      intro y hy hyrr
      rcases List.mem_cons.mp hy with rfl | hy2
      · have hbT : rr ctrl b = true := by
          by_contra hbF
          exact hnot (Or.inl ⟨hyrr, by simpa using hbF⟩)
        have hle : b.arrive ≤ y.arrive := by
          by_contra hgt
          exact hnot (Or.inr ⟨by rw [hyrr, hbT], by omega⟩)
        obtain ⟨h1, h2⟩ := ihb hbT
        exact ⟨h1, le_trans h2 hle⟩
      · exact ihxs y hy2 hyrr
    | false =>
      have hlt : frLT ctrl x b := by
        have hneg := (compareFRFCFS_iff ctrl b x).not.mp (by simp [hk])
        simpa using hneg
      have hres : foldBest (compareFRFCFS ctrl) (bi, b) (x :: xs) i =
          foldBest (compareFRFCFS ctrl) (i, x) xs (i + 1) := by
        simp [foldBest, hk]
      rw [hres]
      obtain ⟨ihx, ihxs⟩ := ih (i + 1) i x
      refine ⟨?_, ?_⟩
      · intro hbT
        rcases hlt with ⟨hxT, hbF⟩ | ⟨heq, harr⟩
        · rw [hbT] at hbF; exact absurd hbF (by simp)
        · obtain ⟨h1, h2⟩ := ihx (by rw [heq, hbT])
          exact ⟨h1, by omega⟩
      · intro y hy hyrr
        rcases List.mem_cons.mp hy with rfl | hy2
        · exact ihx hyrr
        · exact ihxs y hy2 hyrr

/-- Tie discipline of the FRFCFS comparator fold: the fold either keeps
the seed, or lands on an element that strictly precedes the seed and
every element scanned before it. -/
theorem foldBest_fr_strict (ctrl : SchedCtrl) :
    ∀ (xs : List SReq) (i bi : Nat) (b : SReq),
      foldBest (compareFRFCFS ctrl) (bi, b) xs i = (bi, b) ∨
        (frLT ctrl (foldBest (compareFRFCFS ctrl) (bi, b) xs i).2 b ∧
          ∃ j, ∃ hj : j < xs.length,
            (foldBest (compareFRFCFS ctrl) (bi, b) xs i).1 = i + j ∧
            xs.get ⟨j, hj⟩ = (foldBest (compareFRFCFS ctrl) (bi, b) xs i).2 ∧
            ∀ m, ∀ hm : m < xs.length, m < j →
              frLT ctrl (foldBest (compareFRFCFS ctrl) (bi, b) xs i).2 (xs.get ⟨m, hm⟩)) := by
  intro xs
  induction xs with
  | nil => intro i bi b; exact Or.inl rfl
  | cons x xs ih =>
    intro i bi b
    cases hk : compareFRFCFS ctrl b x with
    | true =>
      have hnot : ¬ frLT ctrl x b := (compareFRFCFS_iff ctrl b x).mp hk
      have hres : foldBest (compareFRFCFS ctrl) (bi, b) (x :: xs) i =
          foldBest (compareFRFCFS ctrl) (bi, b) xs (i + 1) := by
        simp [foldBest, hk]
      rw [hres]
      rcases ih (i + 1) bi b with h | ⟨hlt, j, hj, hidx, hget, hall⟩
      · exact Or.inl h
      · refine Or.inr ⟨hlt, j + 1, by simpa using Nat.succ_lt_succ hj, by omega,
          by simpa using hget, ?_⟩
        intro m hm hmj
        match m with
        | 0 => exact frLT_of_frLT_of_kept ctrl hlt hnot
        | Nat.succ m2 =>
          have hm2 : m2 < xs.length := by simpa using hm
          have hres2 := hall m2 hm2 (by omega)
          simpa using hres2
    | false =>
      have hlt : frLT ctrl x b := by
        have hneg := (compareFRFCFS_iff ctrl b x).not.mp (by simp [hk])
        simpa using hneg
      have hres : foldBest (compareFRFCFS ctrl) (bi, b) (x :: xs) i =
          foldBest (compareFRFCFS ctrl) (i, x) xs (i + 1) := by
        simp [foldBest, hk]
      rw [hres]
      rcases ih (i + 1) i x with h | ⟨hlt2, j, hj, hidx, hget, hall⟩
      · rw [h]
        exact Or.inr ⟨hlt, 0, by simp, by simp, by simp,
          fun m hm hm0 => absurd hm0 (by omega)⟩
      · refine Or.inr ⟨frLT_trans ctrl hlt2 hlt, j + 1,
          by simpa using Nat.succ_lt_succ hj, by omega, by simpa using hget, ?_⟩
        intro m hm hmj
        match m with
        | 0 => exact hlt2
        | Nat.succ m2 =>
          have hm2 : m2 < xs.length := by simpa using hm
          have hres2 := hall m2 hm2 (by omega)
          simpa using hres2

end RamuSched

namespace RamuSched

/-- C2: for the FRFCFS scheduler type, whenever some request in the
queue is both is_ready and is_row_hit, get_head returns (the position
of) a request that is both, whose arrival time is minimal among all such
requests, and that strictly beats every earlier-scanned such request on
arrival time, so ties favor the earlier-scanned element. -/
theorem frfcfs_priority (ctrl : SchedCtrl) (q : List SReq) (j : Nat)
    (hj : j < q.length) (hready : rr ctrl (q.get ⟨j, hj⟩) = true) :
    ∃ hi, get_head ctrl .FRFCFS q = some hi ∧
      ∃ hhi : hi < q.length,
        rr ctrl (q.get ⟨hi, hhi⟩) = true ∧
        (∀ k, ∀ hk : k < q.length, rr ctrl (q.get ⟨k, hk⟩) = true →
          (q.get ⟨hi, hhi⟩).arrive ≤ (q.get ⟨k, hk⟩).arrive) ∧
        (∀ k, ∀ hk : k < q.length, k < hi → rr ctrl (q.get ⟨k, hk⟩) = true →
          (q.get ⟨hi, hhi⟩).arrive < (q.get ⟨k, hk⟩).arrive) := by
  cases q with
  | nil => exact absurd hj (by simp)
  | cons x xs =>
    obtain ⟨domb, domxs⟩ := foldBest_fr_dom ctrl xs 1 0 x
    have hrrres : rr ctrl (foldBest (compareFRFCFS ctrl) (0, x) xs 1).2 = true := by
      match j with
      | 0 => exact (domb (by simpa using hready)).1
      | Nat.succ j2 =>
        have hj2 : j2 < xs.length := by simpa using hj
        have hmem : xs.get ⟨j2, hj2⟩ ∈ xs := List.get_mem xs j2 hj2
        have hr2 : rr ctrl (xs.get ⟨j2, hj2⟩) = true := by simpa using hready
        exact (domxs _ hmem hr2).1
    have hsplit : ctrl.is_ready (foldBest (compareFRFCFS ctrl) (0, x) xs 1).2 = true ∧
        ctrl.is_row_hit (foldBest (compareFRFCFS ctrl) (0, x) xs 1).2 = true := by
      have hb : (ctrl.is_ready (foldBest (compareFRFCFS ctrl) (0, x) xs 1).2 &&
          ctrl.is_row_hit (foldBest (compareFRFCFS ctrl) (0, x) xs 1).2) = true := by
        simpa [rr] using hrrres
      simpa using hb
    have hhead : get_head ctrl .FRFCFS (x :: xs) =
        some (foldBest (compareFRFCFS ctrl) (0, x) xs 1).1 := by
      simp [get_head, compare, hsplit.1, hsplit.2]
    refine ⟨(foldBest (compareFRFCFS ctrl) (0, x) xs 1).1, hhead, ?_⟩
    rcases foldBest_fr_strict ctrl xs 1 0 x with hkeep | ⟨hlt, j0, hj0, hidx, hget, hall⟩
    · rw [hkeep]
      rw [hkeep] at hrrres domb domxs
      refine ⟨by simp, by simpa using hrrres, ?_, ?_⟩
      · intro k hk hkrr
        match k with
        | 0 => simp
        | Nat.succ k2 =>
          have hk2 : k2 < xs.length := by simpa using hk
          have hmem : xs.get ⟨k2, hk2⟩ ∈ xs := List.get_mem xs k2 hk2
          have hrk : rr ctrl (xs.get ⟨k2, hk2⟩) = true := by simpa using hkrr
          have hres2 := (domxs _ hmem hrk).2
          simpa using hres2
      · intro k hk hk0
        omega
    · have hhi : (foldBest (compareFRFCFS ctrl) (0, x) xs 1).1 < (x :: xs).length := by
        rw [hidx]
        simp only [List.length_cons]
        omega
      have hq : (x :: xs).get ⟨(foldBest (compareFRFCFS ctrl) (0, x) xs 1).1, hhi⟩ =
          (foldBest (compareFRFCFS ctrl) (0, x) xs 1).2 := by
        have h1 : (foldBest (compareFRFCFS ctrl) (0, x) xs 1).1 = j0 + 1 := by omega
        revert hhi
        rw [h1]
        intro hhi
        simpa using hget
      refine ⟨hhi, ?_, ?_, ?_⟩
      · rw [hq]
        exact hrrres
      · intro k hk hkrr
        rw [hq]
        match k with
        | 0 => exact (domb (by simpa using hkrr)).2
        | Nat.succ k2 =>
          have hk2 : k2 < xs.length := by simpa using hk
          have hmem : xs.get ⟨k2, hk2⟩ ∈ xs := List.get_mem xs k2 hk2
          have hrk : rr ctrl (xs.get ⟨k2, hk2⟩) = true := by simpa using hkrr
          have hres2 := (domxs _ hmem hrk).2
          simpa using hres2
      · intro k hk hklt hkrr
        rw [hq]
        match k with
        | 0 => exact frLT_arrive ctrl hlt (by simpa using hkrr)
        | Nat.succ k2 =>
          have hk2 : k2 < xs.length := by simpa using hk
          have hmlt : k2 < j0 := by omega
          have hfr := frLT_arrive ctrl (hall k2 hk2 hmlt) (by simpa using hkrr)
          simpa using hfr

/-- C2 witness: on a concrete queue where every request is ready and a
row hit, get_head under FRFCFS picks a position satisfying the priority
property (position 0, the older request). -/
theorem frfcfs_priority_witness :
    ∃ hi, get_head ctrlC2W .FRFCFS [reqC3X, reqC3Y] = some hi ∧
      ∃ hhi : hi < ([reqC3X, reqC3Y] : List SReq).length,
        rr ctrlC2W (([reqC3X, reqC3Y] : List SReq).get ⟨hi, hhi⟩) = true ∧
        (∀ k, ∀ hk : k < ([reqC3X, reqC3Y] : List SReq).length,
          rr ctrlC2W (([reqC3X, reqC3Y] : List SReq).get ⟨k, hk⟩) = true →
          (([reqC3X, reqC3Y] : List SReq).get ⟨hi, hhi⟩).arrive ≤
            (([reqC3X, reqC3Y] : List SReq).get ⟨k, hk⟩).arrive) ∧
        (∀ k, ∀ hk : k < ([reqC3X, reqC3Y] : List SReq).length, k < hi →
          rr ctrlC2W (([reqC3X, reqC3Y] : List SReq).get ⟨k, hk⟩) = true →
          (([reqC3X, reqC3Y] : List SReq).get ⟨hi, hhi⟩).arrive <
            (([reqC3X, reqC3Y] : List SReq).get ⟨k, hk⟩).arrive) :=
  frfcfs_priority ctrlC2W [reqC3X, reqC3Y] 0 (by decide) (by decide)

end RamuSched

namespace RamuCache

/-- Helper: check_unlock_all is the conjunction of check_unlock over the
list. -/
theorem check_unlock_all_iff (addr : Nat) (l : List CacheNode) :
    check_unlock_all addr l = true ↔ ∀ c ∈ l, check_unlock addr c = true := by
  induction l with
  | nil => simp [check_unlock_all]
  | cons c cs ih =>
    rw [check_unlock_all]
    rw [Bool.and_eq_true, ih]
    constructor
    · rintro ⟨h1, h2⟩ x hx
      rcases List.mem_cons.mp hx with rfl | hx2
      · exact h1
      · exact h2 x hx2
    · intro h
      exact ⟨h c (by simp), fun x hx => h x (List.mem_cons_of_mem _ hx)⟩

mutual

/-- Helper (mutual with the list version): on a well-formed hierarchy,
an address that check_unlock approves can be invalidated without
tripping the locked-line assertion. -/
theorem check_unlock_invalidate :
    ∀ (c : CacheNode), node_wf c = true → ∀ addr, check_unlock addr c = true →
      (invalidate addr c).isSome = true
  | .node st hs => by
    intro hwf addr hcu
    rw [invalidate]
    rw [check_unlock] at hcu
    cases hfind : st.cache_lines.find? (fun kv => kv.1 == get_index st addr) with
    | none =>
      have hmap : get_lines_map st.cache_lines (get_index st addr) =
          st.cache_lines ++ [(get_index st addr, [])] := by
        rw [get_lines_map, if_neg (by rw [hfind]; simp)]
      have hla : linesAt (st.cache_lines ++ [(get_index st addr, [])]) (get_index st addr) = [] := by
        rw [linesAt, find_or_append, hfind]
        simp [List.find?]
      rw [hmap, hla]
      simp
    | some kv =>
      rw [hfind] at hcu
      have hcu2 : (match firstTagMatch st kv.2 addr with
          | none => true
          | some line => !line.lock && (st.is_first_level || check_unlock_all addr hs)) = true := hcu
      have hmap : get_lines_map st.cache_lines (get_index st addr) = st.cache_lines := by
        rw [get_lines_map, if_pos (by rw [hfind]; simp)]
      have hla : linesAt st.cache_lines (get_index st addr) = kv.2 := by
        rw [linesAt, hfind]
        rfl
      rw [hmap, hla]
      cases htag : firstTagMatch st kv.2 addr with
      | none =>
        cases he : kv.2.isEmpty with
        | true => simp
        | false => simp
      | some line =>
        rw [htag] at hcu2
        simp only [Bool.and_eq_true] at hcu2
        obtain ⟨hlock, hrest⟩ := hcu2
        have hne : kv.2.isEmpty = false := by
          have hmem := List.mem_of_find?_eq_some htag
          exact List.isEmpty_eq_false.mpr (List.ne_nil_of_mem hmem)
        have hlock2 : line.lock = false := by
          cases h : line.lock
          · rfl
          · rw [h] at hlock; exact absurd hlock (by simp)
        simp only [hne, Bool.false_eq_true, if_false, hlock2]
        cases hhs : hs with
        | nil => simp
        | cons h1 h2 =>
          rw [node_wf] at hwf
          simp only [Bool.and_eq_true] at hwf
          obtain ⟨hfl, hwfl⟩ := hwf
          have hfirst : st.is_first_level = false := by
            rw [hhs] at hfl
            simp at hfl
            cases hf : st.is_first_level
            · rfl
            · rw [hf] at hfl; exact absurd hfl (by simp)
          rw [hfirst] at hrest
          simp only [Bool.false_or] at hrest
          rw [hhs] at hrest hwfl
          have hwalk := check_unlock_walk (h1 :: h2) hwfl addr st.latency_each line.dirty
            st.latency_each false hrest
          cases hw : invalidate_walk addr st.latency_each line.dirty (h1 :: h2)
              st.latency_each false with
          | none => rw [hw] at hwalk; exact absurd hwalk (by simp)
          | some out =>
            obtain ⟨hs2, maxd, dr⟩ := out
            simp [hw]

/-- Helper: the invalidate loop over higher caches succeeds when every
higher cache passes check_unlock. -/
theorem check_unlock_walk :
    ∀ (l : List CacheNode), node_wf_list l = true → ∀ addr delay ld t0 d0,
      check_unlock_all addr l = true →
      (invalidate_walk addr delay ld l t0 d0).isSome = true
  | [] => by
    intro hwf addr delay ld t0 d0 hcu
    simp [invalidate_walk]
  | c :: cs => by
    intro hwf addr delay ld t0 d0 hcu
    rw [node_wf_list] at hwf
    rw [check_unlock_all] at hcu
    simp only [Bool.and_eq_true] at hwf hcu
    have hinv := check_unlock_invalidate c hwf.1 addr hcu.1
    rw [invalidate_walk]
    cases hi : invalidate addr c with
    | none => rw [hi] at hinv; exact absurd hinv (by simp)
    | some r =>
      obtain ⟨hc2, d1, dr⟩ := r
      simp only
      have hrec := check_unlock_walk cs hwf.2 addr delay ld
        (if dr then max t0 (delay + d1 * 2) else max t0 (delay + d1))
        (d0 || ld || dr) hcu.2
      cases hw : invalidate_walk addr delay ld cs
          (if dr then max t0 (delay + d1 * 2) else max t0 (delay + d1)) (d0 || ld || dr) with
      | none => rw [hw] at hrec; exact absurd hrec (by simp)
      | some out =>
        obtain ⟨rest2, m, dd⟩ := out
        cases hdr : dr <;> rw [hdr] at hw <;> simp [hw]

end

end RamuCache

namespace RamuCache

/-- Helper: the eviction walk over higher caches succeeds when every
higher cache passes check_unlock. -/
theorem check_unlock_evict_walk :
    ∀ (l : List CacheNode), node_wf_list l = true → ∀ addr, check_unlock_all addr l = true →
      ∀ le vd t0 d0, (evict_walk le addr vd l t0 d0).isSome = true := by
  intro l
  induction l with
  | nil => intro _ addr _ le vd t0 d0; simp [evict_walk]
  | cons c cs ih =>
    intro hwf addr hcu le vd t0 d0
    rw [node_wf_list] at hwf
    rw [check_unlock_all] at hcu
    simp only [Bool.and_eq_true] at hwf hcu
    have hinv := check_unlock_invalidate c hwf.1 addr hcu.1
    rw [evict_walk]
    cases hi : invalidate addr c with
    | none => rw [hi] at hinv; exact absurd hinv (by simp)
    | some r =>
      obtain ⟨hc2, d1, dr⟩ := r
      have hrec := ih hwf.2 addr hcu.2 le vd
        (max t0 (d1 + if dr then le else 0)) (d0 || dr || vd)
      cases hw : evict_walk le addr vd cs
          (max t0 (d1 + if dr then le else 0)) (d0 || dr || vd) with
      | none => rw [hw] at hrec; exact absurd hrec (by simp)
      | some out =>
        obtain ⟨rest2, t3, d3⟩ := out
        simp [hw]

/-- C8: no locked line is ever evicted or invalidated.  (1)
Cache::allocate_line only selects a victim whose lock is false and for
which every higher cache satisfies check_unlock(victim.addr) (on a
non-first level; a first level consults no higher caches).  (2)
Cache::invalidate erases a resident line only behind the
assert(!line->lock): on a locked first tag match it aborts (none) rather
than erase.  (3) On a well-formed hierarchy, check_unlock approval
guarantees the whole recursive invalidation runs without any assertion
failure, and (4) hence evict on an allocate_line victim never fails its
invalidations: every invalidate call the code can issue (evict on a
guarded victim, and its recursion) stays clear of the assertion. -/
theorem no_locked_line_victimized :
    (∀ (st : CacheState) (hs : List CacheNode) (lines : List Line) (v : Line),
      lines.find? (victim_ok st hs) = some v →
      v.lock = false ∧
        (st.is_first_level = false → ∀ hc ∈ hs, check_unlock v.addr hc = true)) ∧
    (∀ (st : CacheState) (hs : List CacheNode) (addr : Nat) (line : Line),
      firstTagMatch st (linesAt st.cache_lines (get_index st addr)) addr = some line →
      line.lock = true → invalidate addr (.node st hs) = none) ∧
    (∀ (c : CacheNode), node_wf c = true → ∀ addr, check_unlock addr c = true →
      (invalidate addr c).isSome = true) ∧
    (∀ (st : CacheState) (hs : List CacheNode) (sys : CacheSys) (lines : List Line) (v : Line),
      node_wf_list hs = true → st.is_first_level = false →
      lines.find? (victim_ok st hs) = some v →
      (evict st hs sys lines v).isSome = true) := by
  refine ⟨?_, ?_, check_unlock_invalidate, ?_⟩
  · intro st hs lines v hfind
    have hpred := List.find?_some hfind
    simp only [victim_ok, Bool.and_eq_true] at hpred
    obtain ⟨hlock, hrest⟩ := hpred
    constructor
    · cases h : v.lock
      · rfl
      · rw [h] at hlock; exact absurd hlock (by simp)
    · intro hfl
      rw [hfl] at hrest
      simp only [Bool.false_or] at hrest
      exact (check_unlock_all_iff v.addr hs).mp hrest
  · intro st hs addr line hmatch hlock
    have hne : (linesAt st.cache_lines (get_index st addr)).isEmpty = false :=
      List.isEmpty_eq_false.mpr (List.ne_nil_of_mem (List.mem_of_find?_eq_some hmatch))
    rw [invalidate, linesAt_get_lines_map]
    rw [hne]
    simp only [Bool.false_eq_true, if_false]
    rw [hmatch]
    simp [hlock]
  · intro st hs sys lines v hwfl hfl hfind
    have hpred := List.find?_some hfind
    simp only [victim_ok, Bool.and_eq_true] at hpred
    obtain ⟨hlock, hrest⟩ := hpred
    rw [hfl] at hrest
    simp only [Bool.false_or] at hrest
    have hwalk := check_unlock_evict_walk hs hwfl v.addr hrest st.latency_each v.dirty 0 v.dirty
    rw [evict]
    cases hw : evict_walk st.latency_each v.addr v.dirty hs 0 v.dirty with
    | none => rw [hw] at hwalk; exact absurd hwalk (by simp)
    | some out =>
      obtain ⟨hs2, invT, dirty⟩ := out
      cases hL : st.is_last_level <;> cases hdirty : dirty <;> simp [hw, hL, hdirty]

/-- C8 witness: on a concrete cache holding a locked line for block 64,
invalidate refuses (assertion failure, modelled none) instead of erasing
the locked line. -/
theorem no_locked_line_victimized_witness :
    invalidate 64 (.node exStLocked []) = none :=
  no_locked_line_victimized.2.1 exStLocked [] 64
    { addr := 64, tag := 0, lock := true, dirty := false, lid := 0 } (by rfl) (by rfl)

end RamuCache

namespace RamuCache

/-- Helper: the level state evict returns is always the input level with
the eviction counter advanced. -/
theorem evict_out_st (st : CacheState) (hs : List CacheNode) (sys : CacheSys)
    (lines : List Line) (v : Line) (st2 : CacheState) (hs2 : List CacheNode)
    (sys2 : CacheSys) (lines2 : List Line) (refresh : Option (Nat × Bool))
    (h : evict st hs sys lines v = some (st2, hs2, sys2, lines2, refresh)) :
    st2 = { st with cache_eviction := st.cache_eviction + 1 } := by
  rw [evict] at h
  cases hw : evict_walk st.latency_each v.addr v.dirty hs 0 v.dirty with
  | none => rw [hw] at h; exact absurd h (by simp)
  | some out =>
    obtain ⟨hs3, t3, d3⟩ := out
    rw [hw] at h
    simp only at h
    split at h <;> (try split at h) <;>
      (simp only [Option.some.injEq, Prod.mk.injEq] at h; exact h.1.symm)

/-- Helper: allocate_line answers noLine exactly on a full set with no
eligible victim, so the no-victim predicate holds. -/
theorem allocate_line_noLine (st : CacheState) (hs : List CacheNode) (sys : CacheSys)
    (lines : List Line) (addr : Nat)
    (h : allocate_line st hs sys lines addr = .noLine) :
    (decide (st.assoc ≤ lines.length) && (lines.find? (victim_ok st hs)).isNone) = true := by
  rw [allocate_line] at h
  cases hne : need_eviction st lines addr with
  | none => rw [hne] at h; exact absurd h (by simp)
  | some b =>
    rw [hne] at h
    cases b with
    | false => exact absurd h (by simp)
    | true =>
      simp only at h
      cases hfind : lines.find? (victim_ok st hs) with
      | some v =>
        rw [hfind] at h
        have h2 : (match evict st hs sys lines v with
            | none => AllocOut.fail
            | some (st2, hs2, sys2, lines2, refresh) =>
              AllocOut.ok { st2 with next_lid := st2.next_lid + 1 } hs2 sys2
                (lines2 ++ [{ addr := addr, tag := get_tag st2 addr, lid := st2.next_lid }])
                refresh st2.next_lid) = AllocOut.noLine := h
        cases hev : evict st hs sys lines v with
        | none => rw [hev] at h2; exact absurd h2 (by simp)
        | some r =>
          obtain ⟨a1, a2, a3, a4, a5⟩ := r
          rw [hev] at h2
          exact absurd h2 (by simp)
      | none =>
        have hd : decide (st.assoc ≤ lines.length) = true := by
          rw [need_eviction] at hne
          split at hne
          · exact absurd hne (by simp)
          · simpa using hne
        simp [hd, hfind]

/-- Helper: a successful allocate_line leaves both refusal statistics
untouched, and its set either had room or held an eligible victim. -/
theorem allocate_line_ok (st : CacheState) (hs : List CacheNode) (sys : CacheSys)
    (lines : List Line) (addr : Nat) (st2 : CacheState) (hs2 : List CacheNode)
    (sys2 : CacheSys) (lines2 : List Line) (refresh : Option (Nat × Bool)) (newLid : Nat)
    (h : allocate_line st hs sys lines addr = .ok st2 hs2 sys2 lines2 refresh newLid) :
    st2.cache_mshr_unavailable = st.cache_mshr_unavailable ∧
    st2.cache_set_unavailable = st.cache_set_unavailable ∧
    (decide (st.assoc ≤ lines.length) && (lines.find? (victim_ok st hs)).isNone) = false := by
  rw [allocate_line] at h
  cases hne : need_eviction st lines addr with
  | none => rw [hne] at h; exact absurd h (by simp)
  | some b =>
    rw [hne] at h
    cases b with
    | false =>
      simp only [AllocOut.ok.injEq] at h
      obtain ⟨h1, -, -, -, -, -⟩ := h
      have hd : decide (st.assoc ≤ lines.length) = false := by
        rw [need_eviction] at hne
        split at hne
        · exact absurd hne (by simp)
        · simpa using hne
      rw [← h1]
      exact ⟨rfl, rfl, by simp [hd]⟩
    | true =>
      simp only at h
      cases hfind : lines.find? (victim_ok st hs) with
      | none => rw [hfind] at h; exact absurd h (by simp)
      | some v =>
        rw [hfind] at h
        have h2 : (match evict st hs sys lines v with
            | none => AllocOut.fail
            | some (st2, hs2, sys2, lines2, refresh) =>
              AllocOut.ok { st2 with next_lid := st2.next_lid + 1 } hs2 sys2
                (lines2 ++ [{ addr := addr, tag := get_tag st2 addr, lid := st2.next_lid }])
                refresh st2.next_lid) =
            AllocOut.ok st2 hs2 sys2 lines2 refresh newLid := h
        cases hev : evict st hs sys lines v with
        | none => rw [hev] at h2; exact absurd h2 (by simp)
        | some r =>
          obtain ⟨a1, a2, a3, a4, a5⟩ := r
          rw [hev] at h2
          simp only [AllocOut.ok.injEq] at h2
          obtain ⟨h1, -, -, -, -, -⟩ := h2
          have ha1 := evict_out_st st hs sys lines v a1 a2 a3 a4 a5 hev
          rw [← h1, ha1]
          exact ⟨rfl, rfl, by simp [hfind]⟩

end RamuCache

namespace RamuCache

/-- Miss half of Cache::send: the result is false exactly when the miss
neither merges into an MSHR entry nor finds room (MSHR full, set fully
locked, or no evictable victim), and the two refusal statistics advance
exactly in their respective refusal case. -/
theorem send_miss_spec (lowerSend : Request → Bool) (st : CacheState) (hs : List CacheNode)
    (sys : CacheSys) (idx : Nat) (lines : List Line) (req : Request) (out : SendOut)
    (h : send_miss lowerSend st hs sys idx lines req = some out) :
    (out.result = false ↔
      ((hit_mshr st req.addr).isSome = false ∧
        ((st.mshr_entries.length == st.mshr_entry_num) = true ∨
          all_sets_locked st lines = true ∨
          (decide (st.assoc ≤ lines.length) && (lines.find? (victim_ok st hs)).isNone) = true))) ∧
    out.st.cache_mshr_unavailable = st.cache_mshr_unavailable +
      (if (hit_mshr st req.addr).isSome = false ∧
          (st.mshr_entries.length == st.mshr_entry_num) = true then 1 else 0) ∧
    out.st.cache_set_unavailable = st.cache_set_unavailable +
      (if (hit_mshr st req.addr).isSome = false ∧
          (st.mshr_entries.length == st.mshr_entry_num) = false ∧
          all_sets_locked st lines = true then 1 else 0) := by
  cases hT : req.type <;>
    (simp only [send_miss, hT, show (ReqType.READ == ReqType.WRITE) = false from rfl,
      show (ReqType.WRITE == ReqType.WRITE) = true from rfl,
      Bool.false_eq_true, if_false, if_true] at h;
     split at h)
  case _ e h2 =>
    have hM : hit_mshr st req.addr = some e := h2
    obtain rfl := Option.some.inj h
    simp [hM]
  case _ h2 =>
    have hM : hit_mshr st req.addr = none := h2
    split at h
    case _ hc =>
      have hF : (st.mshr_entries.length == st.mshr_entry_num) = true := hc
      obtain rfl := Option.some.inj h
      simp [hM, hF]
    case _ hc =>
      have hc2 : ¬ ((st.mshr_entries.length == st.mshr_entry_num) = true) := hc
      have hF : (st.mshr_entries.length == st.mshr_entry_num) = false := by
        revert hc2
        cases st.mshr_entries.length == st.mshr_entry_num <;> simp
      split at h
      case _ hl =>
        have hL : all_sets_locked st lines = true := hl
        obtain rfl := Option.some.inj h
        simp [hM, hF, hL]
      case _ hl =>
        have hl2 : ¬ (all_sets_locked st lines = true) := hl
        have hL : all_sets_locked st lines = false := by
          revert hl2
          cases all_sets_locked st lines <;> simp
        split at h
        case _ harm => exact absurd h (by simp)
        case _ harm =>
          have hNV0 := allocate_line_noLine _ hs sys lines req.addr harm
          have hNV : (decide (st.assoc ≤ lines.length) &&
              (lines.find? (victim_ok st hs)).isNone) = true := hNV0
          obtain rfl := Option.some.inj h
          simp [hM, hF, hL, hNV]
        case _ st2 hs2 sys2 lines2 refresh newLid harm =>
          obtain ⟨hokM0, hokS0, hokNV0⟩ := allocate_line_ok _ hs sys lines req.addr
            st2 hs2 sys2 lines2 refresh newLid harm
          have hokM : st2.cache_mshr_unavailable = st.cache_mshr_unavailable := hokM0
          have hokS : st2.cache_set_unavailable = st.cache_set_unavailable := hokS0
          have hNV : (decide (st.assoc ≤ lines.length) &&
              (lines.find? (victim_ok st hs)).isNone) = false := hokNV0
          split at h
          · split at h
            · obtain rfl := Option.some.inj h
              simp [hM, hF, hL, hNV, hokM, hokS]
            · obtain rfl := Option.some.inj h
              simp [hM, hF, hL, hNV, hokM, hokS]
          · obtain rfl := Option.some.inj h
            simp [hM, hF, hL, hNV, hokM, hokS]
  case _ e h2 =>
    have hM : hit_mshr st req.addr = some e := h2
    obtain rfl := Option.some.inj h
    simp [hM]
  case _ h2 =>
    have hM : hit_mshr st req.addr = none := h2
    split at h
    case _ hc =>
      have hF : (st.mshr_entries.length == st.mshr_entry_num) = true := hc
      obtain rfl := Option.some.inj h
      simp [hM, hF]
    case _ hc =>
      have hc2 : ¬ ((st.mshr_entries.length == st.mshr_entry_num) = true) := hc
      have hF : (st.mshr_entries.length == st.mshr_entry_num) = false := by
        revert hc2
        cases st.mshr_entries.length == st.mshr_entry_num <;> simp
      split at h
      case _ hl =>
        have hL : all_sets_locked st lines = true := hl
        obtain rfl := Option.some.inj h
        simp [hM, hF, hL]
      case _ hl =>
        have hl2 : ¬ (all_sets_locked st lines = true) := hl
        have hL : all_sets_locked st lines = false := by
          revert hl2
          cases all_sets_locked st lines <;> simp
        split at h
        case _ harm => exact absurd h (by simp)
        case _ harm =>
          have hNV0 := allocate_line_noLine _ hs sys lines req.addr harm
          have hNV : (decide (st.assoc ≤ lines.length) &&
              (lines.find? (victim_ok st hs)).isNone) = true := hNV0
          obtain rfl := Option.some.inj h
          simp [hM, hF, hL, hNV]
        case _ st2 hs2 sys2 lines2 refresh newLid harm =>
          obtain ⟨hokM0, hokS0, hokNV0⟩ := allocate_line_ok _ hs sys lines req.addr
            st2 hs2 sys2 lines2 refresh newLid harm
          have hokM : st2.cache_mshr_unavailable = st.cache_mshr_unavailable := hokM0
          have hokS : st2.cache_set_unavailable = st.cache_set_unavailable := hokS0
          have hNV : (decide (st.assoc ≤ lines.length) &&
              (lines.find? (victim_ok st hs)).isNone) = false := hokNV0
          split at h
          · split at h
            · obtain rfl := Option.some.inj h
              simp [hM, hF, hL, hNV, hokM, hokS]
            · obtain rfl := Option.some.inj h
              simp [hM, hF, hL, hNV, hokM, hokS]
          · obtain rfl := Option.some.inj h
            simp [hM, hF, hL, hNV, hokM, hokS]

end RamuCache

namespace RamuCache

/-- C1: Cache::send returns false if and only if it structurally refuses
the request: the access is neither a hit on an unlocked matching line nor
an MSHR merge, and the MSHR table already holds mshr_entry_num entries,
or every line in the (full) target set is locked, or allocate_line yields
no evictable victim.  In the MSHR-full refusal cache_mshr_unavailable is
incremented, in the locked-set refusal cache_set_unavailable is
incremented, and in every other case (hit, merge, fresh allocation) send
returns true and both refusal statistics are unchanged. -/
theorem send_false_iff (lowerSend : Request → Bool) (st : CacheState) (hs : List CacheNode)
    (sys : CacheSys) (req : Request) (out : SendOut)
    (h : send lowerSend st hs sys req = some out) :
    (out.result = false ↔
      (hitP st req.addr = false ∧ mergeP st req.addr = false ∧
        (mshrFullP st = true ∨ allLockedP st req.addr = true ∨
          noVictimP st hs req.addr = true))) ∧
    out.st.cache_mshr_unavailable = st.cache_mshr_unavailable +
      (if hitP st req.addr = false ∧ mergeP st req.addr = false ∧ mshrFullP st = true
        then 1 else 0) ∧
    out.st.cache_set_unavailable = st.cache_set_unavailable +
      (if hitP st req.addr = false ∧ mergeP st req.addr = false ∧ mshrFullP st = false ∧
          allLockedP st req.addr = true then 1 else 0) := by
  cases hT : req.type <;>
    (simp only [send, hT, show (ReqType.READ == ReqType.WRITE) = false from rfl,
      show (ReqType.WRITE == ReqType.WRITE) = true from rfl,
      Bool.false_eq_true, if_false, if_true] at h;
     split at h)
  case _ line h2 =>
    have hFT : firstTagMatch st
        (linesAt (get_lines_map st.cache_lines (get_index st req.addr))
          (get_index st req.addr)) req.addr = some line := h2
    rw [linesAt_get_lines_map] at hFT
    split at h
    case _ hlk =>
      have hHit : hitP st req.addr = true := by
        simp only [hitP, is_hit, hFT]
        exact hlk
      obtain rfl := Option.some.inj h
      simp [hHit]
    case _ hlk =>
      have hHit : hitP st req.addr = false := by
        simp only [hitP, is_hit, hFT]
        revert hlk
        cases line.lock <;> simp
      obtain ⟨hm1, hm2, hm3⟩ := send_miss_spec _ _ _ _ _ _ _ _ h
      rw [linesAt_get_lines_map] at hm1 hm3
      have hm1' : out.result = false ↔ (mergeP st req.addr = false ∧
          (mshrFullP st = true ∨ allLockedP st req.addr = true ∨
            noVictimP st hs req.addr = true)) := hm1
      have hm2' : out.st.cache_mshr_unavailable = st.cache_mshr_unavailable +
          (if mergeP st req.addr = false ∧ mshrFullP st = true then 1 else 0) := hm2
      have hm3' : out.st.cache_set_unavailable = st.cache_set_unavailable +
          (if mergeP st req.addr = false ∧ mshrFullP st = false ∧
              allLockedP st req.addr = true then 1 else 0) := hm3
      simp only [hHit, eq_self_iff_true, true_and]
      exact ⟨hm1', hm2', hm3'⟩
  case _ h2 =>
    have hFT : firstTagMatch st
        (linesAt (get_lines_map st.cache_lines (get_index st req.addr))
          (get_index st req.addr)) req.addr = none := h2
    rw [linesAt_get_lines_map] at hFT
    have hHit : hitP st req.addr = false := by
      simp [hitP, is_hit, hFT]
    obtain ⟨hm1, hm2, hm3⟩ := send_miss_spec _ _ _ _ _ _ _ _ h
    rw [linesAt_get_lines_map] at hm1 hm3
    have hm1' : out.result = false ↔ (mergeP st req.addr = false ∧
        (mshrFullP st = true ∨ allLockedP st req.addr = true ∨
          noVictimP st hs req.addr = true)) := hm1
    have hm2' : out.st.cache_mshr_unavailable = st.cache_mshr_unavailable +
        (if mergeP st req.addr = false ∧ mshrFullP st = true then 1 else 0) := hm2
    have hm3' : out.st.cache_set_unavailable = st.cache_set_unavailable +
        (if mergeP st req.addr = false ∧ mshrFullP st = false ∧
            allLockedP st req.addr = true then 1 else 0) := hm3
    simp only [hHit, eq_self_iff_true, true_and]
    exact ⟨hm1', hm2', hm3'⟩
  case _ line h2 =>
    have hFT : firstTagMatch st
        (linesAt (get_lines_map st.cache_lines (get_index st req.addr))
          (get_index st req.addr)) req.addr = some line := h2
    rw [linesAt_get_lines_map] at hFT
    split at h
    case _ hlk =>
      have hHit : hitP st req.addr = true := by
        simp only [hitP, is_hit, hFT]
        exact hlk
      obtain rfl := Option.some.inj h
      simp [hHit]
    case _ hlk =>
      have hHit : hitP st req.addr = false := by
        simp only [hitP, is_hit, hFT]
        revert hlk
        cases line.lock <;> simp
      obtain ⟨hm1, hm2, hm3⟩ := send_miss_spec _ _ _ _ _ _ _ _ h
      rw [linesAt_get_lines_map] at hm1 hm3
      have hm1' : out.result = false ↔ (mergeP st req.addr = false ∧
          (mshrFullP st = true ∨ allLockedP st req.addr = true ∨
            noVictimP st hs req.addr = true)) := hm1
      have hm2' : out.st.cache_mshr_unavailable = st.cache_mshr_unavailable +
          (if mergeP st req.addr = false ∧ mshrFullP st = true then 1 else 0) := hm2
      have hm3' : out.st.cache_set_unavailable = st.cache_set_unavailable +
          (if mergeP st req.addr = false ∧ mshrFullP st = false ∧
              allLockedP st req.addr = true then 1 else 0) := hm3
      simp only [hHit, eq_self_iff_true, true_and]
      exact ⟨hm1', hm2', hm3'⟩
  case _ h2 =>
    have hFT : firstTagMatch st
        (linesAt (get_lines_map st.cache_lines (get_index st req.addr))
          (get_index st req.addr)) req.addr = none := h2
    rw [linesAt_get_lines_map] at hFT
    have hHit : hitP st req.addr = false := by
      simp [hitP, is_hit, hFT]
    obtain ⟨hm1, hm2, hm3⟩ := send_miss_spec _ _ _ _ _ _ _ _ h
    rw [linesAt_get_lines_map] at hm1 hm3
    have hm1' : out.result = false ↔ (mergeP st req.addr = false ∧
        (mshrFullP st = true ∨ allLockedP st req.addr = true ∨
          noVictimP st hs req.addr = true)) := hm1
    have hm2' : out.st.cache_mshr_unavailable = st.cache_mshr_unavailable +
        (if mergeP st req.addr = false ∧ mshrFullP st = true then 1 else 0) := hm2
    have hm3' : out.st.cache_set_unavailable = st.cache_set_unavailable +
        (if mergeP st req.addr = false ∧ mshrFullP st = false ∧
            allLockedP st req.addr = true then 1 else 0) := hm3
    simp only [hHit, eq_self_iff_true, true_and]
    exact ⟨hm1', hm2', hm3'⟩

end RamuCache

namespace RamuCache

/-- C1 witness: a cold READ through the concrete empty cache is absorbed
(result true, no refusal statistic advances). -/
theorem send_false_iff_witness :
    (exSendOut.result = false ↔
      (hitP exSt exReq.addr = false ∧ mergeP exSt exReq.addr = false ∧
        (mshrFullP exSt = true ∨ allLockedP exSt exReq.addr = true ∨
          noVictimP exSt [] exReq.addr = true))) ∧
    exSendOut.st.cache_mshr_unavailable = exSt.cache_mshr_unavailable +
      (if hitP exSt exReq.addr = false ∧ mergeP exSt exReq.addr = false ∧
          mshrFullP exSt = true then 1 else 0) ∧
    exSendOut.st.cache_set_unavailable = exSt.cache_set_unavailable +
      (if hitP exSt exReq.addr = false ∧ mergeP exSt exReq.addr = false ∧
          mshrFullP exSt = false ∧ allLockedP exSt exReq.addr = true then 1 else 0) :=
  send_false_iff (fun _ => true) exSt [] exSys exReq exSendOut (by rfl)

end RamuCache
